import Mathlib

/-! Durable remote list store.

A shallow embedding of the list store (`structures/remote_list.go`), the
operation log (`utils/processing_logs.go`) and the service and recovery code
(`server.go`), followed by theorems about them.

Conventions of the embedding:

* Go `int` values are mathematical integers (`Int`); no arithmetic is done on
  list values, so overflow never arises in the store.
* A store is run sequentially: the mutexes of the source are not modelled.
* A Go map is a finite partial function; `Lists` is a partial function on
  identifiers.
* A method `func (rl *RemoteList) M(args, reply *T) error` becomes a function
  returning the store after the call together with `Except ListError T`
  (`.ok reply` when the error is `nil`).
-/

/-! ## structures/remote_list.go -/

/-- SpecificList: a single list of integers. -/
structure SpecificList where
  Elements : List Int
deriving DecidableEq, Repr

/-- RemoteList: the map from list identifiers to lists. -/
@[ext] structure RemoteList where
  Lists : String → Option SpecificList

/-- The three errors built by `fmt.Errorf` in the list methods, told apart by
their message; the arguments are the values formatted into the message. -/
inductive ListError where
  | notFound (listID : String)
  | indexOutOfRange (index : Int) (listID : String) (size : Int)
  | emptyList (listID : String)
deriving DecidableEq, Repr

/-- NewRemoteList: the empty store. -/
def NewRemoteList : RemoteList := ⟨fun _ => none⟩

/-- NewSpecificList: a list holding the given elements. -/
def NewSpecificList (elements : List Int) : SpecificList := ⟨elements⟩

/-- Map assignment `rl.Lists[listID] = l`. -/
def RemoteList.store (rl : RemoteList) (listID : String) (l : SpecificList) : RemoteList :=
  ⟨fun k => if k = listID then some l else rl.Lists k⟩

/-- ensureListExists: inserts an empty list when the identifier is absent and
returns the (existing or new) list together with the store. -/
def RemoteList.ensureListExists (rl : RemoteList) (listID : String) : RemoteList × SpecificList :=
  match rl.Lists listID with
  | some l => (rl, l)
  | none => (rl.store listID (NewSpecificList []), NewSpecificList [])

structure AppendArgs where
  ListID : String
  Value : Int
deriving DecidableEq, Repr

structure GetArgs where
  ListID : String
  Index : Int
deriving DecidableEq, Repr

structure RemoveArgs where
  ListID : String
deriving DecidableEq, Repr

structure SizeArgs where
  ListID : String
deriving DecidableEq, Repr

/-- RemoteList.Append: creates the list if needed, appends the value at the
tail, replies `true` with a nil error. -/
def RemoteList.Append (rl : RemoteList) (args : AppendArgs) : RemoteList × Except ListError Bool :=
  let (rl1, specificList) := rl.ensureListExists args.ListID
  (rl1.store args.ListID ⟨specificList.Elements ++ [args.Value]⟩, .ok true)

/-- RemoteList.Get: the element at `args.Index`. -/
def RemoteList.Get (rl : RemoteList) (args : GetArgs) : RemoteList × Except ListError Int :=
  match rl.Lists args.ListID with
  | none => (rl, .error (.notFound args.ListID))
  | some specificList =>
    if h : args.Index < 0 ∨ args.Index ≥ (specificList.Elements.length : Int) then
      (rl, .error (.indexOutOfRange args.Index args.ListID specificList.Elements.length))
    else
      (rl, .ok (specificList.Elements.get ⟨args.Index.toNat, by omega⟩))

/-- RemoteList.Remove: removes and returns the last element. -/
def RemoteList.Remove (rl : RemoteList) (args : RemoveArgs) : RemoteList × Except ListError Int :=
  match rl.Lists args.ListID with
  | none => (rl, .error (.notFound args.ListID))
  | some specificList =>
    if h : specificList.Elements.length = 0 then
      (rl, .error (.emptyList args.ListID))
    else
      let lastIndex := specificList.Elements.length - 1
      (rl.store args.ListID ⟨specificList.Elements.take lastIndex⟩,
        .ok (specificList.Elements.get ⟨lastIndex, by omega⟩))

/-- RemoteList.Size: the number of elements. -/
def RemoteList.Size (rl : RemoteList) (args : SizeArgs) : RemoteList × Except ListError Int :=
  match rl.Lists args.ListID with
  | none => (rl, .error (.notFound args.ListID))
  | some specificList => (rl, .ok (specificList.Elements.length : Int))

/-- A client issuing `Append(id, v)` for each value of a sequence in order:
the final store and the replies in call order. -/
def appendAll (rl : RemoteList) (listID : String) : List Int → RemoteList × List (Except ListError Bool)
  | [] => (rl, [])
  | v :: vs =>
    let r := rl.Append ⟨listID, v⟩
    let rest := appendAll r.1 listID vs
    (rest.1, r.2 :: rest.2)

/-! ## utils/processing_logs.go

Go strings are modelled as Lean strings (sequences of Unicode code points).
`time.Time` is an instant counted in nanoseconds from Go's zero time
`time.Time{}`; `a.After(b)` is `a > b` and `IsZero` is `= 0`.  The two calls
the log code makes into the `time` package with the layout
`time.RFC3339Nano`, `Format` and `Parse`, are taken as a parameter
(`TimeLayout`).  `strings.Fields`, `strconv.Atoi`, `fmt.Sprintf("%d")` and
`bufio.Scanner` with `bufio.ScanLines` are modelled on their documented
behaviour. -/

/-- An instant, in nanoseconds since Go's zero time. -/
abbrev Time := Int

/-- The zero time `time.Time{}`. -/
def zeroTime : Time := 0

/-- LogEntry: one entry of the operation log. -/
structure LogEntry where
  Timestamp : Time
  Operation : String
  ListID : String
  Value : Int
  Index : Int
deriving DecidableEq, Repr

/-- The formatting and parsing of instants under the layout
`time.RFC3339Nano`: `Format t` is `t.Format(time.RFC3339Nano)` and `Parse s`
is `time.Parse(time.RFC3339Nano, s)`, `none` standing for a parse error. -/
structure TimeLayout where
  Format : Time → String
  Parse : String → Option Time

/-- unicode.IsSpace: the white space characters, as used by `strings.Fields`. -/
def IsSpace (r : Char) : Bool :=
  r.toNat == 0x09 || r.toNat == 0x0A || r.toNat == 0x0B || r.toNat == 0x0C
    || r.toNat == 0x0D || r.toNat == 0x20 || r.toNat == 0x85 || r.toNat == 0xA0
    || r.toNat == 0x1680 || (0x2000 ≤ r.toNat && r.toNat ≤ 0x200A)
    || r.toNat == 0x2028 || r.toNat == 0x2029 || r.toNat == 0x202F
    || r.toNat == 0x205F || r.toNat == 0x3000

/-- The scan of `strings.Fields`: `cur` holds, reversed, the characters of the
field being read. -/
def fieldsAux : List Char → List Char → List String
  | [], cur => if cur.isEmpty then [] else [String.mk cur.reverse]
  | c :: cs, cur =>
    if IsSpace c then
      if cur.isEmpty then fieldsAux cs [] else String.mk cur.reverse :: fieldsAux cs []
    else fieldsAux cs (c :: cur)

/-- strings.Fields: the maximal runs of non-space characters, in order. -/
def Fields (s : String) : List String := fieldsAux s.data []

/-- The value of a decimal digit character, `none` for any other character. -/
def digitValue (c : Char) : Option Nat :=
  if 48 ≤ c.toNat ∧ c.toNat ≤ 57 then some (c.toNat - 48) else none

/-- The digit loop of `strconv.ParseUint` in base 10 (no bound on the value
here; the bound is checked by `Atoi`). -/
def parseDigitsAux : List Char → Nat → Option Nat
  | [], n => some n
  | c :: cs, n =>
    match digitValue c with
    | none => none
    | some d => parseDigitsAux cs (n * 10 + d)

/-- A non-empty run of decimal digits read as a natural number. -/
def parseDigits (cs : List Char) : Option Nat :=
  if cs.isEmpty then none else parseDigitsAux cs 0

/-- strconv.Atoi for a 64-bit `int`: an optional sign, then one or more
decimal digits, with value in `[-2^63, 2^63 - 1]`; `none` for a syntax or
range error. -/
def Atoi (s : String) : Option Int :=
  match s.data with
  | [] => none
  | c :: cs =>
    if c = '-' then
      match parseDigits cs with
      | none => none
      | some n => if n ≤ 2 ^ 63 then some (-(n : Int)) else none
    else
      match parseDigits (if c = '+' then cs else c :: cs) with
      | none => none
      | some n => if n < 2 ^ 63 then some (n : Int) else none

/-- The decimal digits of a natural number, most significant first, put in
front of `acc`; `fuel` bounds the number of digits. -/
def formatNatAux : Nat → Nat → List Char → List Char
  | 0, _, acc => acc
  | fuel + 1, n, acc =>
    if n < 10 then Nat.digitChar n :: acc
    else formatNatAux fuel (n / 10) (Nat.digitChar (n % 10) :: acc)

/-- The decimal rendering of a natural number. -/
def formatNat (n : Nat) : List Char := formatNatAux (n + 1) n []

/-- The text `fmt.Sprintf("%d", v)` of an integer. -/
def formatInt (v : Int) : String :=
  if v < 0 then String.mk ('-' :: formatNat v.natAbs) else String.mk (formatNat v.natAbs)

/-- The text written by `writeLog` for an entry, without the final newline:
timestamp, operation and identifier separated by single spaces, followed by
the value for Append and by the index for Get/Size. -/
def logString (L : TimeLayout) (entry : LogEntry) : String :=
  let logString := L.Format entry.Timestamp ++ " " ++ entry.Operation ++ " " ++ entry.ListID
  if entry.Operation = "Append" then logString ++ " " ++ formatInt entry.Value
  else if entry.Operation = "Get/Size" then logString ++ " " ++ formatInt entry.Index
  else logString

/-- writeLog on a log file with content `logFile` (the empty text when the
file does not exist yet).  `openOk` tells whether `os.OpenFile` succeeds: if
not, the result is `none` (an error, nothing written); otherwise the line and
a newline are appended (`Println`) and the result is the new content. -/
def writeLog (L : TimeLayout) (openOk : Bool) (logFile : String) (entry : LogEntry) :
    Option String :=
  if openOk then some (logFile ++ logString L entry ++ "\n") else none

/-- AppendLog; `now` is the reading of `time.Now()`. -/
def AppendLog (L : TimeLayout) (now : Time) (openOk : Bool) (logFile : String)
    (listID : String) (value : Int) : Option String :=
  writeLog L openOk logFile
    { Timestamp := now, Operation := "Append", ListID := listID, Value := value, Index := 0 }

/-- RemoveLog; `now` is the reading of `time.Now()`. -/
def RemoveLog (L : TimeLayout) (now : Time) (openOk : Bool) (logFile : String)
    (listID : String) : Option String :=
  writeLog L openOk logFile
    { Timestamp := now, Operation := "Remove", ListID := listID, Value := 0, Index := 0 }

/-- GetLog; `now` is the reading of `time.Now()`. -/
def GetLog (L : TimeLayout) (now : Time) (openOk : Bool) (logFile : String)
    (listID : String) (valueOrIndex : Int) : Option String :=
  writeLog L openOk logFile
    { Timestamp := now, Operation := "Get/Size", ListID := listID, Value := 0,
      Index := valueOrIndex }

/-- The `dropCR` of `bufio.ScanLines`: one trailing carriage return is
dropped. `rev` is the line reversed. -/
def dropCR (rev : List Char) : List Char :=
  match rev with
  | c :: cs => if c = '\r' then cs.reverse else (c :: cs).reverse
  | [] => []

/-- The scan of `bufio.ScanLines` over the characters of a file: `cur` holds,
reversed, the characters of the line being read. -/
def scanLinesAux : List Char → List Char → List String
  | [], cur => if cur.isEmpty then [] else [String.mk (dropCR cur)]
  | c :: cs, cur =>
    if c = '\n' then String.mk (dropCR cur) :: scanLinesAux cs []
    else scanLinesAux cs (c :: cur)

/-- The lines `bufio.ScanLines` splits a file content into: the text between
newlines, each without its trailing carriage return, a last line without
newline included.  These are the lines `scanner.Text()` yields when the
scanner reaches the end of the file; whether it does is `ErrTooLong`. -/
def scanLines (content : String) : List String := scanLinesAux content.data []

/-- The number of bytes of a text in UTF-8, Go's `len` of the string. -/
def byteLength : List Char → Nat
  | [] => 0
  | c :: cs => c.utf8Size + byteLength cs

/-- The size of the scanner's buffer, `bufio.MaxScanTokenSize`. -/
def MaxScanTokenSize : Nat := 64 * 1024

/-- The check of the scanner's buffer over the characters of a file: `n`
counts the bytes (UTF-8) of the line being read, its carriage return
included and its newline not. -/
def errTooLongAux : List Char → Nat → Bool
  | [], n => decide (MaxScanTokenSize ≤ n)
  | c :: cs, n =>
    if c = '\n' then decide (MaxScanTokenSize ≤ n) || errTooLongAux cs 0
    else errTooLongAux cs (n + c.utf8Size)

/-- Whether `scanner.Scan()` stops with `bufio.ErrTooLong`, so that
`scanner.Err()` is not nil: some line of the file has `MaxScanTokenSize`
bytes or more and does not fit the buffer together with its newline. -/
def ErrTooLong (content : String) : Bool := errTooLongAux content.data 0

/-- The body of the scanning loop of ReadLogsFromTimestamp for one line:
`some entry` when the line reaches `entries = append(entries, entry)`, `none`
on every `continue` and when the timestamp is not after `since`.
`p0 :: p1 :: p2 :: rest` are `parts[0]`, `parts[1]`, `parts[2]` and
`parts[3:]`; `len(parts) > 3` is `rest` being non-empty with `parts[3]` its
head. -/
def readLine (L : TimeLayout) (since : Time) (line : String) : Option LogEntry :=
  match Fields line with
  | p0 :: p1 :: p2 :: rest =>
    match L.Parse p0 with
    | none => none
    | some timestamp =>
      if timestamp > since then
        let entry : LogEntry :=
          { Timestamp := timestamp, Operation := p1, ListID := p2, Value := 0, Index := 0 }
        if entry.Operation = "Append" then
          match rest with
          | p3 :: _ =>
            match Atoi p3 with
            | none => none
            | some val => some { entry with Value := val }
          | [] => none
        else if entry.Operation = "Get/Size" then
          match rest with
          | p3 :: _ =>
            match Atoi p3 with
            | none => none
            | some idx => some { entry with Index := idx }
          | [] => some entry
        else some entry
      else none
  | _ => none

/-- The scanning loop of ReadLogsFromTimestamp: `entries` accumulates the
entries appended so far. -/
def readLoop (L : TimeLayout) (since : Time) : List String → List LogEntry → List LogEntry
  | [], entries => entries
  | line :: lines, entries =>
    match readLine L since line with
    | none => readLoop L since lines entries
    | some entry => readLoop L since lines (entries ++ [entry])

/-- The entries the scanning loop of ReadLogsFromTimestamp has accumulated
when the scanner has yielded every line of the file. -/
def readEntries (L : TimeLayout) (since : Time) (logFile : String) : List LogEntry :=
  readLoop L since (scanLines logFile) []

/-- The two errors ReadLogsFromTimestamp returns: the log file does not open
(for a reason other than not existing), or the scanner stops with an error. -/
inductive ReadError where
  | openLog
  | readLog
deriving DecidableEq, Repr

/-- ReadLogsFromTimestamp on a log file with content `logFile` (the empty
text for a missing file, which the code reads as an empty log): the returned
entries and error.  `openOk` tells whether `os.Open` succeeds.  When the file
does not open, or when the scanner stops on a line that does not fit its
buffer, the result is no entries and an error; otherwise it is the entries of
the lines that parse and are stamped strictly after `since`, and a nil
error. -/
def ReadLogsFromTimestamp (L : TimeLayout) (since : Time) (openOk : Bool) (logFile : String) :
    List LogEntry × Option ReadError :=
  if openOk then
    if ErrTooLong logFile then ([], some .readLog)
    else (readEntries L since logFile, none)
  else ([], some .openLog)

/-! ### A concrete layout: RFC 3339 in UTC

The theorems below hold for every `TimeLayout`.  To evaluate the definitions
on concrete log files, `rfc3339UTC` renders and reads instants of the years
0001 to 9999 the way `time.RFC3339Nano` does for a time in UTC:
`2006-01-02T15:04:05.999999999Z`, the fraction written without trailing
zeros and left out when it is zero. -/

/-- Days from 0001-01-01 to the given day of the proleptic Gregorian calendar
(year at least 1, month 1 to 12). -/
def daysFromCivil (year month day : Nat) : Nat :=
  let y := if month ≤ 2 then year - 1 else year
  let mp := if month ≤ 2 then month + 9 else month - 3
  let era := y / 400
  let yoe := y % 400
  let doy := (153 * mp + 2) / 5 + day - 1
  let doe := yoe * 365 + yoe / 4 - yoe / 100 + doy
  era * 146097 + doe - 306

/-- The year, month and day that lie the given number of days after
0001-01-01. -/
def civilFromDays (days : Nat) : Nat × Nat × Nat :=
  let z := days + 306
  let era := z / 146097
  let doe := z % 146097
  let yoe := (doe - doe / 1460 + doe / 36524 - doe / 146096) / 365
  let doy := doe - (365 * yoe + yoe / 4 - yoe / 100)
  let mp := (5 * doy + 2) / 153
  let day := doy - (153 * mp + 2) / 5 + 1
  let month := if mp < 10 then mp + 3 else mp - 9
  let year := yoe + era * 400 + (if month ≤ 2 then 1 else 0)
  (year, month, day)

/-- The instant `time.Date(year, month, day, hour, min, sec, nsec, time.UTC)`,
for arguments in their normal ranges. -/
def Date (year month day hour min sec nsec : Nat) : Time :=
  (((daysFromCivil year month day * 86400 + hour * 3600 + min * 60 + sec) * 1000000000
    + nsec : Nat) : Int)

/-- A number below `10 ^ width` written with exactly `width` decimal digits. -/
def padDigits : Nat → Nat → List Char
  | 0, _ => []
  | width + 1, n => padDigits width (n / 10) ++ [Nat.digitChar (n % 10)]

/-- The fraction of a second: nothing when zero, else a period and the nine
digits of the nanoseconds without their trailing zeros. -/
def formatFraction (nsec : Nat) : List Char :=
  if nsec = 0 then []
  else '.' :: ((padDigits 9 nsec).reverse.dropWhile (fun c => c == '0')).reverse

/-- The rendering of an instant at or after the zero time in UTC. -/
def formatUTC (t : Time) : String :=
  let n := t.toNat
  let secs := n / 1000000000
  let civil := civilFromDays (secs / 86400)
  let rem := secs % 86400
  String.mk (padDigits 4 civil.1 ++ '-' :: padDigits 2 civil.2.1 ++ '-' :: padDigits 2 civil.2.2
    ++ 'T' :: padDigits 2 (rem / 3600) ++ ':' :: padDigits 2 (rem % 3600 / 60)
    ++ ':' :: padDigits 2 (rem % 60) ++ formatFraction (n % 1000000000) ++ ['Z'])

/-- Exactly `width` decimal digits at the head of the text, as a number, with
the rest of the text. -/
def takeNumber (width : Nat) (cs : List Char) : Option (Nat × List Char) :=
  if (cs.take width).length = width then
    match parseDigitsAux (cs.take width) 0 with
    | none => none
    | some n => some (n, cs.drop width)
  else none

/-- The given character at the head of the text, with the rest of the text. -/
def takeChar (c : Char) (cs : List Char) : Option (List Char) :=
  match cs with
  | d :: rest => if d = c then some rest else none
  | [] => none

/-- The number of days of a month. -/
def daysIn (year month : Nat) : Nat :=
  if month = 2 then
    if year % 4 = 0 ∧ (year % 100 ≠ 0 ∨ year % 400 = 0) then 29 else 28
  else if month = 4 ∨ month = 6 ∨ month = 9 ∨ month = 11 then 30
  else 31

/-- The fraction and zone that end a UTC timestamp: `Z`, or a period, one to
nine digits and `Z`; the value is the nanoseconds. -/
def parseFractionZ (cs : List Char) : Option Nat :=
  match cs with
  | c :: rest =>
    if c = 'Z' then (if rest.isEmpty then some 0 else none)
    else if c = '.' then
      match rest.reverse with
      | z :: revDigits =>
        if z = 'Z' ∧ 1 ≤ revDigits.length ∧ revDigits.length ≤ 9 then
          match parseDigitsAux revDigits.reverse 0 with
          | none => none
          | some n => some (n * 10 ^ (9 - revDigits.length))
        else none
      | [] => none
    else none
  | [] => none

/-- The ranges `time.Parse` checks on the fields of a date and clock time. -/
def validFields (year month day hour min sec : Nat) : Bool :=
  decide (1 ≤ year) && decide (1 ≤ month) && decide (month ≤ 12) && decide (1 ≤ day)
    && decide (day ≤ daysIn year month) && decide (hour < 24) && decide (min < 60)
    && decide (sec < 60)

/-- Three numbers of the given widths, the first two followed by the
separator: `YYYY-MM-DD` for widths 4, 2, 2 and `-`, `HH:MM:SS` for widths
2, 2, 2 and `:`. -/
def takeTriple (w1 w2 w3 : Nat) (sep : Char) (cs : List Char) :
    Option (Nat × Nat × Nat × List Char) :=
  match takeNumber w1 cs with
  | none => none
  | some (a, r1) =>
    match takeChar sep r1 with
    | none => none
    | some r2 =>
      match takeNumber w2 r2 with
      | none => none
      | some (b, r3) =>
        match takeChar sep r3 with
        | none => none
        | some r4 =>
          match takeNumber w3 r4 with
          | none => none
          | some (c, r5) => some (a, b, c, r5)

/-- The reading of a UTC timestamp `YYYY-MM-DDTHH:MM:SS[.fraction]Z` with
year at least 1, `none` for any other text. -/
def parseUTC (s : String) : Option Time :=
  match takeTriple 4 2 2 '-' s.data with
  | none => none
  | some (year, month, day, r1) =>
    match takeChar 'T' r1 with
    | none => none
    | some r2 =>
      match takeTriple 2 2 2 ':' r2 with
      | none => none
      | some (hour, min, sec, r3) =>
        match parseFractionZ r3 with
        | none => none
        | some nsec =>
          if validFields year month day hour min sec then
            some (Date year month day hour min sec nsec)
          else none

/-- The layout `time.RFC3339Nano` for instants in UTC of the years 0001 to
9999. -/
def rfc3339UTC : TimeLayout where
  Format := formatUTC
  Parse := parseUTC

/-- A sample instant: `k` nanoseconds after 2024-05-01T10:00:00Z. -/
def sampleInstant (k : Nat) : Time := Date 2024 5 1 10 0 0 k

/-- A string that `strings.Fields` returns as one field: non-empty and free
of white space. -/
def isToken (s : String) : Bool :=
  !s.data.isEmpty && s.data.all (fun c => !IsSpace c)

/-- The reading of one log line as the claim about ReadLogsFromTimestamp
words it, without regard to any watermark: the line has at least three
fields, the first is a timestamp, the second the operation, the third the
list identifier; an Append line must carry a fourth field that is an integer
(its value); a Get/Size line may carry a fourth field, which must then be an
integer (its index).  `none` when the line fails to parse. -/
def parsedLine (L : TimeLayout) (line : String) : Option LogEntry :=
  let parts := Fields line
  if parts.length < 3 then none
  else
    match L.Parse (parts.getD 0 "") with
    | none => none
    | some timestamp =>
      let payload : Option (Option Int) := (parts.get? 3).map Atoi
      if parts.getD 1 "" = "Append" then
        match payload with
        | some (some val) => some ⟨timestamp, parts.getD 1 "", parts.getD 2 "", val, 0⟩
        | _ => none
      else if parts.getD 1 "" = "Get/Size" then
        match payload with
        | none => some ⟨timestamp, parts.getD 1 "", parts.getD 2 "", 0, 0⟩
        | some (some idx) => some ⟨timestamp, parts.getD 1 "", parts.getD 2 "", 0, idx⟩
        | some none => none
      else some ⟨timestamp, parts.getD 1 "", parts.getD 2 "", 0, 0⟩

/-! ## utils/processing_snapshots.go

The snapshot file holds the JSON encoding, compressed, of the store and of
one timestamp; encoding followed by decoding gives back the same lists and
the same instant, so the file content is modelled as that pair, `none` when
the file does not exist. -/

/-- SnapshotContent: the state of the lists and the timestamp of the last
log entry covered. -/
structure SnapshotContent where
  RemoteList : RemoteList
  LastLogTimestamp : Time

/-- SaveSnapshot: the snapshot file after a successful save. -/
def SaveSnapshot (rl : RemoteList) (lastLogTimestamp : Time) : Option SnapshotContent :=
  some { RemoteList := rl, LastLogTimestamp := lastLogTimestamp }

/-- LoadSnapshot: the store and timestamp of the snapshot file, or the empty
store and the zero time when there is no file. -/
def LoadSnapshot (snapshotFile : Option SnapshotContent) : RemoteList × Time :=
  match snapshotFile with
  | none => (NewRemoteList, zeroTime)
  | some content => (content.RemoteList, content.LastLogTimestamp)

/-! ## server.go -/

/-- RemoteListService: the store and the time of the last logged operation. -/
structure RemoteListService where
  remoteList : RemoteList
  lastLoggedOperationTimestamp : Time

/-- The server process: the service and the content of the log file. -/
structure ServerState where
  service : RemoteListService
  logFile : String

/-- What one service call meets outside the program: the reading of
`time.Now()` in `logAndTrackWithValue` or `logAndTrackWithoutValue`
(`operationTime`), the later reading of `time.Now()` in `AppendLog`,
`RemoveLog` or `GetLog` (`logTime`), and whether the log file opens. -/
structure CallEnv where
  operationTime : Time
  logTime : Time
  openOk : Bool
deriving DecidableEq, Repr

/-- logAndTrackWithValue: calls the log function and, when it returns no
error, raises the tracked timestamp to `operationTime`.  The Boolean tells
whether the returned error is nil. -/
def logAndTrackWithValue (st : ServerState) (operationTime : Time)
    (logFunc : String → String → Int → Option String) (listID : String) (val : Int) :
    ServerState × Bool :=
  match logFunc st.logFile listID val with
  | none => (st, false)
  | some logFile =>
    if operationTime > st.service.lastLoggedOperationTimestamp then
      ({ service := { st.service with lastLoggedOperationTimestamp := operationTime },
         logFile := logFile }, true)
    else ({ st with logFile := logFile }, true)

/-- logAndTrackWithoutValue: as logAndTrackWithValue, for a log function
without value. -/
def logAndTrackWithoutValue (st : ServerState) (operationTime : Time)
    (logFunc : String → String → Option String) (listID : String) :
    ServerState × Bool :=
  match logFunc st.logFile listID with
  | none => (st, false)
  | some logFile =>
    if operationTime > st.service.lastLoggedOperationTimestamp then
      ({ service := { st.service with lastLoggedOperationTimestamp := operationTime },
         logFile := logFile }, true)
    else ({ st with logFile := logFile }, true)

/-- The store of the service replaced by the store a list method returns. -/
def ServerState.withStore (st : ServerState) (rl : RemoteList) : ServerState :=
  { st with service := { st.service with remoteList := rl } }

/-- RemoteListService.Append: log (an error of the log is only printed), then
append to the list. -/
def RemoteListService.Append (L : TimeLayout) (st : ServerState) (env : CallEnv)
    (args : AppendArgs) : ServerState × Except ListError Bool :=
  let st1 := (logAndTrackWithValue st env.operationTime
    (AppendLog L env.logTime env.openOk) args.ListID args.Value).1
  let r := st1.service.remoteList.Append args
  (st1.withStore r.1, r.2)

/-- RemoteListService.Get: log, then read the list. -/
def RemoteListService.Get (L : TimeLayout) (st : ServerState) (env : CallEnv)
    (args : GetArgs) : ServerState × Except ListError Int :=
  let st1 := (logAndTrackWithValue st env.operationTime
    (GetLog L env.logTime env.openOk) args.ListID args.Index).1
  let r := st1.service.remoteList.Get args
  (st1.withStore r.1, r.2)

/-- RemoteListService.Remove: log, then remove from the list. -/
def RemoteListService.Remove (L : TimeLayout) (st : ServerState) (env : CallEnv)
    (args : RemoveArgs) : ServerState × Except ListError Int :=
  let st1 := (logAndTrackWithoutValue st env.operationTime
    (RemoveLog L env.logTime env.openOk) args.ListID).1
  let r := st1.service.remoteList.Remove args
  (st1.withStore r.1, r.2)

/-- RemoteListService.Size: log (with index 0), then read the size. -/
def RemoteListService.Size (L : TimeLayout) (st : ServerState) (env : CallEnv)
    (args : SizeArgs) : ServerState × Except ListError Int :=
  let st1 := (logAndTrackWithValue st env.operationTime
    (GetLog L env.logTime env.openOk) args.ListID 0).1
  let r := st1.service.remoteList.Size args
  (st1.withStore r.1, r.2)

/-- The body of the replay loop of `main` for one entry: Append and Remove
entries are applied to the store (their reply and error dropped), and the
tracked timestamp is raised to the entry's timestamp. -/
def replayEntry (svc : RemoteListService) (entry : LogEntry) : RemoteListService :=
  let remoteList :=
    if entry.Operation = "Append" then
      (svc.remoteList.Append ⟨entry.ListID, entry.Value⟩).1
    else if entry.Operation = "Remove" then
      (svc.remoteList.Remove ⟨entry.ListID⟩).1
    else svc.remoteList
  { remoteList := remoteList,
    lastLoggedOperationTimestamp :=
      if entry.Timestamp > svc.lastLoggedOperationTimestamp then entry.Timestamp
      else svc.lastLoggedOperationTimestamp }

/-- The replay loop of `main`. -/
def replay (svc : RemoteListService) (logEntries : List LogEntry) : RemoteListService :=
  logEntries.foldl replayEntry svc

/-- The recovery of `main`: load the snapshot, read the log entries after the
snapshot's timestamp and replay them; when reading the log returns an error,
the error is printed and nothing is replayed.  `openOk` tells whether the log
file opens. -/
def recover (L : TimeLayout) (snapshotFile : Option SnapshotContent) (openOk : Bool)
    (logFile : String) : RemoteListService :=
  let loaded := LoadSnapshot snapshotFile
  let remoteListService : RemoteListService :=
    { remoteList := loaded.1, lastLoggedOperationTimestamp := loaded.2 }
  let recoveryStartTime := remoteListService.lastLoggedOperationTimestamp
  match ReadLogsFromTimestamp L recoveryStartTime openOk logFile with
  | (_, some _) => remoteListService
  | (logEntries, none) => replay remoteListService logEntries

/-- One tick of the snapshot timer of `main`: the snapshot file written from
the current store and tracked timestamp. -/
def snapshotTick (st : ServerState) : Option SnapshotContent :=
  SaveSnapshot st.service.remoteList st.service.lastLoggedOperationTimestamp

/-- A call a client makes to the service. -/
inductive Call where
  | Append (args : AppendArgs)
  | Get (args : GetArgs)
  | Remove (args : RemoveArgs)
  | Size (args : SizeArgs)
deriving DecidableEq, Repr

/-- A call together with what it meets outside the program. -/
structure Request where
  call : Call
  env : CallEnv
deriving DecidableEq, Repr

/-- The server state after serving one request. -/
def serve (L : TimeLayout) (st : ServerState) (req : Request) : ServerState :=
  match req.call with
  | .Append args => (RemoteListService.Append L st req.env args).1
  | .Get args => (RemoteListService.Get L st req.env args).1
  | .Remove args => (RemoteListService.Remove L st req.env args).1
  | .Size args => (RemoteListService.Size L st req.env args).1

/-- A sequential run of the service over a list of requests. -/
def run (L : TimeLayout) (st : ServerState) (reqs : List Request) : ServerState :=
  reqs.foldl (serve L) st

/-- The server started with no snapshot and no log: empty store, zero
timestamp, empty log file. -/
def freshServer (L : TimeLayout) : ServerState :=
  { service := recover L none true "", logFile := "" }

/-- The list identifier a call names. -/
def Call.ListID : Call → String
  | .Append args => args.ListID
  | .Get args => args.ListID
  | .Remove args => args.ListID
  | .Size args => args.ListID

/-- The entry the service hands to `writeLog` for a request: built by
AppendLog for Append, by RemoveLog for Remove, and by GetLog for Get (with
the index) and for Size (with 0). -/
def Request.logEntry (req : Request) : LogEntry :=
  match req.call with
  | .Append args => ⟨req.env.logTime, "Append", args.ListID, args.Value, 0⟩
  | .Get args => ⟨req.env.logTime, "Get/Size", args.ListID, 0, args.Index⟩
  | .Remove args => ⟨req.env.logTime, "Remove", args.ListID, 0, 0⟩
  | .Size args => ⟨req.env.logTime, "Get/Size", args.ListID, 0, 0⟩

/-- The store after the list method of a call. -/
def RemoteList.call (rl : RemoteList) : Call → RemoteList
  | .Append args => (rl.Append args).1
  | .Get args => (rl.Get args).1
  | .Remove args => (rl.Remove args).1
  | .Size args => (rl.Size args).1

/-- The values of a 64-bit Go `int`. -/
def fitsInt (v : Int) : Bool := decide (-(2 : Int) ^ 63 ≤ v) && decide (v < (2 : Int) ^ 63)

/-- Strings joined by single spaces. -/
def joinTokens : List String → String
  | [] => ""
  | [t] => t
  | t :: u :: ts => t ++ (" " ++ joinTokens (u :: ts))

/-- A file content in which every line is ended by a newline. -/
def isClosed (file : String) : Bool :=
  file.data.isEmpty || file.data.getLast? == some '\n'

/-- A sample run used to evaluate the definitions: two appends, a read, a
removal and a size query on the list `a`, the clock advancing by one
nanosecond at each reading from 2024-05-01T10:00:00.000000001Z on. -/
def sampleRun : List Request :=
  [ ⟨.Append ⟨"a", 1⟩, ⟨sampleInstant 1, sampleInstant 2, true⟩⟩,
    ⟨.Append ⟨"a", -2⟩, ⟨sampleInstant 3, sampleInstant 4, true⟩⟩,
    ⟨.Get ⟨"a", 0⟩, ⟨sampleInstant 5, sampleInstant 6, true⟩⟩,
    ⟨.Remove ⟨"a"⟩, ⟨sampleInstant 7, sampleInstant 8, true⟩⟩,
    ⟨.Size ⟨"a"⟩, ⟨sampleInstant 9, sampleInstant 10, true⟩⟩ ]

/-- A sample log: `Append a 1`, `Append a 2`, `Remove a`, stamped 1, 2 and 3
nanoseconds after 2024-05-01T10:00:00Z. -/
def sampleLog : String :=
  "2024-05-01T10:00:00.000000001Z Append a 1\n2024-05-01T10:00:00.000000002Z Append a 2\n2024-05-01T10:00:00.000000003Z Remove a\n"

/-- A sample log with a corrupted line (the payload `x`) between two valid
Append lines. -/
def corruptedLog : String :=
  "2024-05-01T10:00:00.000000001Z Append a 1\n2024-05-01T10:00:00.000000002Z Append a x\n2024-05-01T10:00:00.000000003Z Append a 3\n"

/-- The readings of the clock during a run, in the order they are taken: for
each request the reading of `logAndTrackWithValue` or
`logAndTrackWithoutValue`, then the reading of the log function. -/
def clockReadings : List Request → List Time
  | [] => []
  | req :: reqs => req.env.operationTime :: req.env.logTime :: clockReadings reqs

/-- An identifier of 70000 characters `x`. -/
def longToken : String := String.mk (List.replicate 70000 'x')

/-- A sample log whose second line has 70000 bytes: a valid Append line, then
a line of 70000 characters `x`. -/
def longLineLog : String :=
  "2024-05-01T10:00:00.000000001Z Append a 1\n" ++ longToken ++ "\n"

set_option maxRecDepth 20000

/-! ## Theorems: the list store -/

theorem store_lists_self (rl : RemoteList) (listID : String) (l : SpecificList) :
    (rl.store listID l).Lists listID = some l := by
  simp [RemoteList.store]

theorem store_store (rl : RemoteList) (listID : String) (l l2 : SpecificList) :
    (rl.store listID l).store listID l2 = rl.store listID l2 := by
  ext k : 2
  simp only [RemoteList.store]
  split <;> rfl

theorem store_same (rl : RemoteList) (listID : String) (l : SpecificList)
    (h : rl.Lists listID = some l) : rl.store listID l = rl := by
  ext k : 2
  simp only [RemoteList.store]
  split
  · next hk => rw [hk, h]
  · rfl

theorem append_absent (rl : RemoteList) (listID : String) (v : Int)
    (h : rl.Lists listID = none) :
    rl.Append ⟨listID, v⟩ = (rl.store listID ⟨[v]⟩, .ok true) := by
  simp [RemoteList.Append, RemoteList.ensureListExists, h, NewSpecificList, store_store]

theorem append_present (rl : RemoteList) (listID : String) (v : Int) (l : SpecificList)
    (h : rl.Lists listID = some l) :
    rl.Append ⟨listID, v⟩ = (rl.store listID ⟨l.Elements ++ [v]⟩, .ok true) := by
  simp [RemoteList.Append, RemoteList.ensureListExists, h]

theorem appendAll_present (listID : String) (vs : List Int) :
    ∀ (rl : RemoteList) (l : SpecificList), rl.Lists listID = some l →
      appendAll rl listID vs
        = (rl.store listID ⟨l.Elements ++ vs⟩, List.replicate vs.length (.ok true)) := by
  induction vs with
  | nil =>
    intro rl l h
    simp only [appendAll, List.append_nil, List.length_nil, List.replicate_zero]
    rw [store_same rl listID ⟨l.Elements⟩ h]
  | cons v vs ih =>
    intro rl l h
    simp only [appendAll]
    rw [append_present rl listID v l h]
    rw [ih _ _ (store_lists_self rl listID _)]
    simp [store_store, List.replicate_succ]

theorem appendAll_absent (rl : RemoteList) (listID : String) (vs : List Int)
    (h : rl.Lists listID = none) (hne : vs ≠ []) :
    appendAll rl listID vs
      = (rl.store listID ⟨vs⟩, List.replicate vs.length (.ok true)) := by
  cases vs with
  | nil => exact absurd rfl hne
  | cons v vs =>
    simp only [appendAll]
    rw [append_absent rl listID v h]
    rw [appendAll_present listID vs _ _ (store_lists_self rl listID _)]
    simp [store_store, List.replicate_succ]

theorem get_present (rl : RemoteList) (listID : String) (l : SpecificList)
    (h : rl.Lists listID = some l) (i : Nat) (hi : i < l.Elements.length) :
    rl.Get ⟨listID, (i : Int)⟩ = (rl, .ok (l.Elements.get ⟨i, hi⟩)) := by
  unfold RemoteList.Get
  simp only [h]
  have hn : ¬ ((i : Int) < 0 ∨ (i : Int) ≥ (l.Elements.length : Int)) := by omega
  rw [dif_neg hn]
  simp

theorem size_present (rl : RemoteList) (listID : String) (l : SpecificList)
    (h : rl.Lists listID = some l) :
    rl.Size ⟨listID⟩ = (rl, .ok (l.Elements.length : Int)) := by
  simp [RemoteList.Size, h]

/-- C1 (order), amended to a non-empty sequence. For an identifier absent from
the store, appending the values `vs` (at least one) one by one makes every
Append reply `true` with no error; afterwards Size returns the number of
values, and Get at each position `i` below that number returns the value
appended in the `i+1`-th call. -/
theorem C1_append_order (rl : RemoteList) (listID : String) (vs : List Int)
    (habsent : rl.Lists listID = none) (hne : vs ≠ []) :
    (appendAll rl listID vs).2 = List.replicate vs.length (.ok true)
    ∧ ((appendAll rl listID vs).1.Size ⟨listID⟩).2 = .ok (vs.length : Int)
    ∧ ∀ (i : Nat) (hi : i < vs.length),
        ((appendAll rl listID vs).1.Get ⟨listID, (i : Int)⟩).2 = .ok (vs.get ⟨i, hi⟩) := by
  rw [appendAll_absent rl listID vs habsent hne]
  refine ⟨rfl, ?_, fun i hi => ?_⟩
  · rw [size_present _ listID ⟨vs⟩ (store_lists_self _ _ _)]
  · rw [get_present _ listID ⟨vs⟩ (store_lists_self _ _ _) i hi]

/-- Witness for C1: three values appended to a fresh identifier of the empty
store. -/
theorem C1_append_order_witness :
    (appendAll NewRemoteList "a" [7, 8, 9]).2 = List.replicate 3 (.ok true)
    ∧ ((appendAll NewRemoteList "a" [7, 8, 9]).1.Size ⟨"a"⟩).2 = .ok 3
    ∧ ∀ (i : Nat) (hi : i < 3),
        ((appendAll NewRemoteList "a" [7, 8, 9]).1.Get ⟨"a", (i : Int)⟩).2
          = .ok (([7, 8, 9] : List Int).get ⟨i, hi⟩) :=
  C1_append_order NewRemoteList "a" [7, 8, 9] rfl (by decide)

/-- Counterexample to C1 as stated: with the empty sequence of values (n = 0)
no Append is issued, the identifier stays absent, and Size fails with
not-found instead of returning 0. -/
theorem C1_empty_sequence_counterexample :
    NewRemoteList.Lists "a" = none
    ∧ ((appendAll NewRemoteList "a" []).1.Size ⟨"a"⟩).2 = .error (.notFound "a")
    ∧ ((appendAll NewRemoteList "a" []).1.Size ⟨"a"⟩).2
        ≠ .ok ((([] : List Int).length : Nat) : Int) := by
  refine ⟨rfl, rfl, ?_⟩
  intro h
  cases h

/-- C2 (stack law). On a list that exists, Append of `v` immediately followed
by Remove succeeds, returns `v`, and leaves the store (hence the element
sequence and the size of the list) exactly as it was before the Append. -/
theorem C2_append_then_remove (rl : RemoteList) (listID : String) (l : SpecificList) (v : Int)
    (h : rl.Lists listID = some l) :
    (rl.Append ⟨listID, v⟩).2 = .ok true
    ∧ (rl.Append ⟨listID, v⟩).1.Remove ⟨listID⟩ = (rl, .ok v)
    ∧ ((rl.Append ⟨listID, v⟩).1.Remove ⟨listID⟩).1.Lists listID = some l := by
  have key : (rl.Append ⟨listID, v⟩).1.Remove ⟨listID⟩ = (rl, .ok v) := by
    rw [append_present rl listID v l h]
    unfold RemoteList.Remove
    simp only [store_lists_self]
    have hn : ¬ ((l.Elements ++ [v]).length = 0) := by simp
    rw [dif_neg hn]
    simp only [store_store]
    have e1 : List.take ((l.Elements ++ [v]).length - 1) (l.Elements ++ [v]) = l.Elements := by
      simp
    have e2 : (l.Elements ++ [v]).get ⟨(l.Elements ++ [v]).length - 1, by simp⟩ = v := by
      simp
    rw [e2]
    simp only [e1]
    rw [store_same rl listID ⟨l.Elements⟩ h]
  refine ⟨?_, key, ?_⟩
  · rw [append_present rl listID v l h]
  · rw [key]; exact h

/-- Witness for C2: the list `a = [1, 2]`, value 5. -/
theorem C2_append_then_remove_witness :
    ((NewRemoteList.store "a" ⟨[1, 2]⟩).Append ⟨"a", 5⟩).2 = .ok true
    ∧ ((NewRemoteList.store "a" ⟨[1, 2]⟩).Append ⟨"a", 5⟩).1.Remove ⟨"a"⟩
        = (NewRemoteList.store "a" ⟨[1, 2]⟩, .ok 5)
    ∧ (((NewRemoteList.store "a" ⟨[1, 2]⟩).Append ⟨"a", 5⟩).1.Remove ⟨"a"⟩).1.Lists "a"
        = some ⟨[1, 2]⟩ :=
  C2_append_then_remove (NewRemoteList.store "a" ⟨[1, 2]⟩) "a" ⟨[1, 2]⟩ 5
    (store_lists_self _ _ _)

/-- C3 (auto-create asymmetry). For an identifier that is not a key of the
store, Size fails with not-found; after one Append to that identifier Size
succeeds and returns 1. -/
theorem C3_size_absent_then_append (rl : RemoteList) (listID : String) (x : Int)
    (habsent : rl.Lists listID = none) :
    (rl.Size ⟨listID⟩).2 = .error (.notFound listID)
    ∧ ((rl.Append ⟨listID, x⟩).1.Size ⟨listID⟩).2 = .ok 1 := by
  constructor
  · simp [RemoteList.Size, habsent]
  · rw [append_absent rl listID x habsent,
      size_present _ listID ⟨[x]⟩ (store_lists_self _ _ _)]
    rfl

/-- Witness for C3: the identifier `never-seen` on the empty store. -/
theorem C3_size_absent_then_append_witness :
    (NewRemoteList.Size ⟨"never-seen"⟩).2 = .error (.notFound "never-seen")
    ∧ ((NewRemoteList.Append ⟨"never-seen", 4⟩).1.Size ⟨"never-seen"⟩).2 = .ok 1 :=
  C3_size_absent_then_append NewRemoteList "never-seen" 4 rfl

/-- C4 (bounds). On an existing list with elements `e`, Get fails with the
out-of-range error exactly when `index < 0` or `index >= length e` (and with
no other error), otherwise it returns `e[index]`; in particular Get at `-1`
and Get at the size of the list both fail. -/
theorem C4_get_bounds (rl : RemoteList) (listID : String) (l : SpecificList) (index : Int)
    (h : rl.Lists listID = some l) :
    ((rl.Get ⟨listID, index⟩).2
        = .error (.indexOutOfRange index listID (l.Elements.length : Int))
      ↔ (index < 0 ∨ index ≥ (l.Elements.length : Int)))
    ∧ ((∃ err, (rl.Get ⟨listID, index⟩).2 = .error err)
      ↔ (index < 0 ∨ index ≥ (l.Elements.length : Int)))
    ∧ (∀ (hlt : index.toNat < l.Elements.length), 0 ≤ index →
        (rl.Get ⟨listID, index⟩).2 = .ok (l.Elements.get ⟨index.toNat, hlt⟩))
    ∧ (rl.Get ⟨listID, -1⟩).2
        = .error (.indexOutOfRange (-1) listID (l.Elements.length : Int))
    ∧ (rl.Get ⟨listID, (l.Elements.length : Int)⟩).2
        = .error (.indexOutOfRange (l.Elements.length : Int) listID (l.Elements.length : Int)) := by
  have hbad : ∀ idx : Int, (idx < 0 ∨ idx ≥ (l.Elements.length : Int)) →
      (rl.Get ⟨listID, idx⟩).2
        = .error (.indexOutOfRange idx listID (l.Elements.length : Int)) := by
    intro idx hidx
    unfold RemoteList.Get
    simp only [h]
    rw [dif_pos hidx]
  have hgood : ∀ idx : Int, ¬ (idx < 0 ∨ idx ≥ (l.Elements.length : Int)) →
      ∀ (hlt : idx.toNat < l.Elements.length),
      (rl.Get ⟨listID, idx⟩).2 = .ok (l.Elements.get ⟨idx.toNat, hlt⟩) := by
    intro idx hidx hlt
    unfold RemoteList.Get
    simp only [h]
    rw [dif_neg hidx]
  refine ⟨⟨fun he => ?_, hbad index⟩, ⟨fun he => ?_, fun hi => ⟨_, hbad index hi⟩⟩,
    fun hlt h0 => hgood index (by omega) hlt, hbad (-1) (by omega),
    hbad _ (by omega)⟩
  · by_contra hn
    rw [hgood index hn (by omega)] at he
    cases he
  · by_contra hn
    obtain ⟨err, herr⟩ := he
    rw [hgood index hn (by omega)] at herr
    cases herr

/-- Witness for C4: the list `a = [4, 5, 6]` at index 1. -/
theorem C4_get_bounds_witness :
    (((NewRemoteList.store "a" ⟨[4, 5, 6]⟩).Get ⟨"a", 1⟩).2
        = .error (.indexOutOfRange 1 "a" 3)
      ↔ ((1 : Int) < 0 ∨ (1 : Int) ≥ 3))
    ∧ ((∃ err, ((NewRemoteList.store "a" ⟨[4, 5, 6]⟩).Get ⟨"a", 1⟩).2 = .error err)
      ↔ ((1 : Int) < 0 ∨ (1 : Int) ≥ 3))
    ∧ (∀ (hlt : (1 : Int).toNat < 3), 0 ≤ (1 : Int) →
        ((NewRemoteList.store "a" ⟨[4, 5, 6]⟩).Get ⟨"a", 1⟩).2
          = .ok (([4, 5, 6] : List Int).get ⟨(1 : Int).toNat, hlt⟩))
    ∧ ((NewRemoteList.store "a" ⟨[4, 5, 6]⟩).Get ⟨"a", -1⟩).2
        = .error (.indexOutOfRange (-1) "a" 3)
    ∧ ((NewRemoteList.store "a" ⟨[4, 5, 6]⟩).Get ⟨"a", 3⟩).2
        = .error (.indexOutOfRange 3 "a" 3) :=
  C4_get_bounds (NewRemoteList.store "a" ⟨[4, 5, 6]⟩) "a" ⟨[4, 5, 6]⟩ 1
    (store_lists_self _ _ _)

/-- C5 (errors change nothing). Whenever Get, Remove or Size returns an error,
the store after the call is the store before it. In particular a call on an
absent identifier fails with not-found and the identifier stays absent,
Remove on an existing list of length 0 fails with the empty-list error, and
Get with an out-of-range index fails with the out-of-range error, each with
the store unchanged. -/
theorem C5_errors_leave_store_unchanged (rl : RemoteList) (listID : String) (index : Int) :
    (∀ err, (rl.Get ⟨listID, index⟩).2 = .error err → (rl.Get ⟨listID, index⟩).1 = rl)
    ∧ (∀ err, (rl.Remove ⟨listID⟩).2 = .error err → (rl.Remove ⟨listID⟩).1 = rl)
    ∧ (∀ err, (rl.Size ⟨listID⟩).2 = .error err → (rl.Size ⟨listID⟩).1 = rl)
    ∧ (rl.Lists listID = none →
        rl.Get ⟨listID, index⟩ = (rl, .error (.notFound listID))
        ∧ rl.Remove ⟨listID⟩ = (rl, .error (.notFound listID))
        ∧ rl.Size ⟨listID⟩ = (rl, .error (.notFound listID))
        ∧ (rl.Get ⟨listID, index⟩).1.Lists listID = none
        ∧ (rl.Remove ⟨listID⟩).1.Lists listID = none
        ∧ (rl.Size ⟨listID⟩).1.Lists listID = none)
    ∧ (rl.Lists listID = some ⟨[]⟩ →
        rl.Remove ⟨listID⟩ = (rl, .error (.emptyList listID)))
    ∧ (∀ l, rl.Lists listID = some l →
        (index < 0 ∨ index ≥ (l.Elements.length : Int)) →
        rl.Get ⟨listID, index⟩
          = (rl, .error (.indexOutOfRange index listID (l.Elements.length : Int)))) := by
  have hget : (rl.Get ⟨listID, index⟩).1 = rl := by
    unfold RemoteList.Get
    split
    · rfl
    · split <;> rfl
  have hsize : (rl.Size ⟨listID⟩).1 = rl := by
    unfold RemoteList.Size
    split <;> rfl
  have hrem : ∀ err, (rl.Remove ⟨listID⟩).2 = .error err → (rl.Remove ⟨listID⟩).1 = rl := by
    intro err
    unfold RemoteList.Remove
    split
    · intro _; rfl
    · split
      · intro _; rfl
      · intro he; cases he
  refine ⟨fun _ _ => hget, hrem, fun _ _ => hsize, fun hnone => ?_, fun hemp => ?_,
    fun l hl hidx => ?_⟩
  · have g : rl.Get ⟨listID, index⟩ = (rl, .error (.notFound listID)) := by
      simp [RemoteList.Get, hnone]
    have r : rl.Remove ⟨listID⟩ = (rl, .error (.notFound listID)) := by
      simp [RemoteList.Remove, hnone]
    have s : rl.Size ⟨listID⟩ = (rl, .error (.notFound listID)) := by
      simp [RemoteList.Size, hnone]
    refine ⟨g, r, s, ?_, ?_, ?_⟩
    · rw [g]; exact hnone
    · rw [r]; exact hnone
    · rw [s]; exact hnone
  · simp [RemoteList.Remove, hemp]
  · unfold RemoteList.Get
    simp only [hl]
    rw [dif_pos hidx]

/-- Witness for C5: on the store holding only the empty list `a`, Remove of
`a` fails with the empty-list error and Get of `a` at index 0 is out of range,
both leaving the store as it was. -/
theorem C5_errors_leave_store_unchanged_witness :
    (NewRemoteList.store "a" ⟨[]⟩).Remove ⟨"a"⟩
        = (NewRemoteList.store "a" ⟨[]⟩, .error (.emptyList "a"))
    ∧ (NewRemoteList.store "a" ⟨[]⟩).Get ⟨"a", 0⟩
        = (NewRemoteList.store "a" ⟨[]⟩, .error (.indexOutOfRange 0 "a" 0)) :=
  ⟨(C5_errors_leave_store_unchanged (NewRemoteList.store "a" ⟨[]⟩) "a" 0).2.2.2.2.1
      (store_lists_self _ _ _),
   (C5_errors_leave_store_unchanged (NewRemoteList.store "a" ⟨[]⟩) "a" 0).2.2.2.2.2
      ⟨[]⟩ (store_lists_self _ _ _) (by decide)⟩

/-! ## Theorems: text helpers -/

theorem isToken_ne_nil (s : String) (h : isToken s = true) : s.data ≠ [] := by
  intro hnil
  simp [isToken, hnil] at h

theorem isToken_not_space (s : String) (h : isToken s = true) :
    ∀ c ∈ s.data, IsSpace c = false := by
  intro c hc
  simp only [isToken, Bool.and_eq_true, List.all_eq_true] at h
  have := h.2 c hc
  simpa using this

theorem fieldsAux_append_token (tok : List Char) (htok : ∀ c ∈ tok, IsSpace c = false) :
    ∀ (rest cur : List Char),
      fieldsAux (tok ++ rest) cur = fieldsAux rest (tok.reverse ++ cur) := by
  induction tok with
  | nil => intro rest cur; rfl
  | cons c cs ih =>
    intro rest cur
    have hc : IsSpace c = false := htok c (List.mem_cons_self _ _)
    have hcs : ∀ d ∈ cs, IsSpace d = false := fun d hd => htok d (List.mem_cons_of_mem _ hd)
    simp only [List.cons_append, fieldsAux, hc, Bool.false_eq_true, if_false]
    exact (ih hcs rest (c :: cur)).trans (by simp)

theorem scanLinesAux_append_line (l : List Char) (hl : ∀ c ∈ l, c ≠ '\n') :
    ∀ (rest cur : List Char),
      scanLinesAux (l ++ rest) cur = scanLinesAux rest (l.reverse ++ cur) := by
  induction l with
  | nil => intro rest cur; rfl
  | cons c cs ih =>
    intro rest cur
    have hnl : c ≠ '\n' := hl c (List.mem_cons_self _ _)
    have hcs : ∀ d ∈ cs, d ≠ '\n' := fun d hd => hl d (List.mem_cons_of_mem _ hd)
    simp only [List.cons_append, scanLinesAux, hnl, if_false]
    exact (ih hcs rest (c :: cur)).trans (by simp)

theorem not_newline_of_not_space (l : List Char) (hl : ∀ c ∈ l, IsSpace c = false) :
    ∀ c ∈ l, c ≠ '\n' := by
  intro c hc h
  have hsp := hl c hc
  rw [h] at hsp
  exact absurd hsp (by decide)

theorem freshServer_eq (L : TimeLayout) :
    freshServer L = ⟨⟨NewRemoteList, zeroTime⟩, ""⟩ := rfl

theorem fieldsAux_space (c : Char) (hc : IsSpace c = true) (rest cur : List Char)
    (hcur : cur ≠ []) :
    fieldsAux (c :: rest) cur = String.mk cur.reverse :: fieldsAux rest [] := by
  cases cur with
  | nil => exact absurd rfl hcur
  | cons d ds => simp [fieldsAux, hc]

theorem scanLinesAux_newline (rest cur : List Char) :
    scanLinesAux ('\n' :: rest) cur = String.mk (dropCR cur) :: scanLinesAux rest [] := by
  simp [scanLinesAux]

theorem dropCR_of_ne (c : Char) (cs : List Char) (hc : c ≠ '\r') :
    dropCR (c :: cs) = cs.reverse ++ [c] := by
  simp [dropCR, hc]

theorem dropCR_reverse (l : List Char) (hcr : l.getLast? ≠ some '\r') :
    dropCR l.reverse = l := by
  cases h : l.reverse with
  | nil =>
    have : l = [] := by simpa using h
    simp [this, dropCR]
  | cons c cs =>
    have hl : l = cs.reverse ++ [c] := by
      have := congrArg List.reverse h
      simpa using this
    have hc : c ≠ '\r' := by
      intro hc
      apply hcr
      rw [hl, hc]
      simp
    rw [dropCR_of_ne c cs hc, hl]

/-- A file made of one line and its newline is scanned as that line. -/
theorem scanLines_line (l : String) (hnl : ∀ c ∈ l.data, c ≠ '\n')
    (hcr : l.data.getLast? ≠ some '\r') :
    scanLines (l ++ "\n") = [l] := by
  simp only [scanLines, String.data_append]
  rw [scanLinesAux_append_line _ hnl]
  rw [scanLinesAux_newline, List.append_nil, dropCR_reverse _ hcr]
  simp [scanLinesAux]

/-- A token followed by text that starts with a space is the first field of
the whole. -/
theorem Fields_token_append (tok suf : String) (htok : isToken tok = true)
    (c : Char) (rest : List Char) (hsuf : suf.data = c :: rest) (hc : IsSpace c = true) :
    Fields (tok ++ suf) = tok :: Fields suf := by
  have hne := isToken_ne_nil tok htok
  have hsp := isToken_not_space tok htok
  simp only [Fields, String.data_append, hsuf]
  rw [fieldsAux_append_token _ hsp]
  have hcur : tok.data.reverse ++ [] ≠ [] := by simpa using hne
  rw [fieldsAux_space c hc _ _ hcur]
  simp [fieldsAux, hc]

theorem token_append_no_newline (tok suf : String) (htok : isToken tok = true)
    (hsuf : ∀ c ∈ suf.data, c ≠ '\n') : ∀ c ∈ (tok ++ suf).data, c ≠ '\n' := by
  intro c hc
  rw [String.data_append, List.mem_append] at hc
  rcases hc with hc | hc
  · exact not_newline_of_not_space _ (isToken_not_space tok htok) c hc
  · exact hsuf c hc

theorem getLast?_append_of_ne_nil (a b : List Char) (hb : b ≠ []) :
    (a ++ b).getLast? = b.getLast? := by
  cases b with
  | nil => exact absurd rfl hb
  | cons c cs =>
    rw [List.getLast?_append, List.getLast?_eq_getLast (c :: cs) hb]
    rfl

/-- A log file made of one line that starts with a token and goes on with
text free of newlines, not ending in a carriage return: the scanner yields
that one line. -/
theorem scanLines_token_line (tok suf : String) (htok : isToken tok = true)
    (hsuf : ∀ c ∈ suf.data, c ≠ '\n') (hne : suf.data ≠ [])
    (hcr : suf.data.getLast? ≠ some '\r') :
    scanLines (tok ++ suf ++ "\n") = [tok ++ suf] := by
  apply scanLines_line _ (token_append_no_newline tok suf htok hsuf)
  rw [String.data_append, getLast?_append_of_ne_nil _ _ hne]
  exact hcr

/-! ## Theorems: decimal text -/

theorem digitChar_facts : ∀ d < 10,
    digitValue (Nat.digitChar d) = some d ∧ IsSpace (Nat.digitChar d) = false := by
  decide

theorem digitValue_some_facts (c : Char) (d : Nat) (h : digitValue c = some d) :
    IsSpace c = false ∧ c ≠ '-' ∧ c ≠ '+' := by
  unfold digitValue at h
  split at h
  · next hr =>
    refine ⟨?_, ?_, ?_⟩
    · unfold IsSpace
      have h1 := hr.1
      have h2 := hr.2
      simp only [Bool.or_eq_false_iff, beq_eq_false_iff_ne, ne_eq, Bool.and_eq_false_imp,
        decide_eq_true_eq, decide_eq_false_iff_not, not_le]
      omega
    · intro hc; rw [hc] at hr; revert hr; decide
    · intro hc; rw [hc] at hr; revert hr; decide
  · cases h

theorem parseDigitsAux_snoc (xs : List Char) (c : Char) :
    ∀ k, parseDigitsAux (xs ++ [c]) k
      = match parseDigitsAux xs k with
        | none => none
        | some m => (digitValue c).map (fun d => m * 10 + d) := by
  induction xs with
  | nil =>
    intro k
    simp only [List.nil_append, parseDigitsAux]
    cases digitValue c <;> rfl
  | cons x xs ih =>
    intro k
    simp only [List.cons_append, parseDigitsAux]
    cases digitValue x with
    | none => rfl
    | some d => exact ih _

/-- The digits written for `n` in front of `acc`: a non-empty run of digit
characters that reads back as `n`. -/
theorem formatNatAux_spec (fuel : Nat) : ∀ (n : Nat) (acc : List Char), n < fuel →
    ∃ ds : List Char, formatNatAux fuel n acc = ds ++ acc ∧ ds ≠ []
      ∧ (∀ c ∈ ds, ∃ d, digitValue c = some d) ∧ parseDigitsAux ds 0 = some n := by
  induction fuel with
  | zero =>
    intro n acc hlt
    omega
  | succ k ih =>
    intro n acc hn
    by_cases h10 : n < 10
    · refine ⟨[Nat.digitChar n], ?_, by simp, ?_, ?_⟩
      · simp [formatNatAux, h10]
      · intro c hc
        rw [List.mem_singleton] at hc
        exact ⟨n, by rw [hc]; exact (digitChar_facts n h10).1⟩
      · simp [parseDigitsAux, (digitChar_facts n h10).1]
    · have hlt : n / 10 < k := by omega
      obtain ⟨ds, hds, hne, hdig, hval⟩ := ih (n / 10) (Nat.digitChar (n % 10) :: acc) hlt
      have hmod : n % 10 < 10 := Nat.mod_lt _ (by omega)
      refine ⟨ds ++ [Nat.digitChar (n % 10)], ?_, by simp, ?_, ?_⟩
      · simp only [formatNatAux, h10, if_false]
        rw [hds]
        simp
      · intro c hc
        rw [List.mem_append, List.mem_singleton] at hc
        rcases hc with hc | hc
        · exact hdig c hc
        · exact ⟨n % 10, by rw [hc]; exact (digitChar_facts _ hmod).1⟩
      · rw [parseDigitsAux_snoc, hval]
        simp only [(digitChar_facts _ hmod).1, Option.map_some']
        congr 1
        omega

theorem formatNat_spec (n : Nat) :
    formatNat n ≠ [] ∧ (∀ c ∈ formatNat n, ∃ d, digitValue c = some d)
      ∧ parseDigits (formatNat n) = some n := by
  obtain ⟨ds, hds, hne, hdig, hval⟩ := formatNatAux_spec (n + 1) n [] (by omega)
  have h : formatNat n = ds := by simp [formatNat, hds]
  rw [h]
  refine ⟨hne, hdig, ?_⟩
  unfold parseDigits
  cases ds with
  | nil => exact absurd rfl hne
  | cons c cs => simpa using hval

/-- The text of an integer is one token. -/
theorem formatInt_isToken (v : Int) : isToken (formatInt v) = true := by
  obtain ⟨hne, hdig, _⟩ := formatNat_spec v.natAbs
  have hsp : ∀ c ∈ formatNat v.natAbs, IsSpace c = false := by
    intro c hc
    obtain ⟨d, hd⟩ := hdig c hc
    exact (digitValue_some_facts c d hd).1
  unfold formatInt isToken
  split
  · simp only [List.isEmpty_cons, Bool.not_false, Bool.true_and, List.all_cons,
      List.all_eq_true, Bool.and_eq_true, Bool.not_eq_true']
    exact ⟨by decide, hsp⟩
  · simp only [Bool.and_eq_true, Bool.not_eq_true', List.all_eq_true]
    refine ⟨?_, hsp⟩
    cases hf : formatNat v.natAbs with
    | nil => exact absurd hf hne
    | cons c cs => rfl

/-- strconv.Atoi reads back the text of every integer of the 64-bit range. -/
theorem Atoi_formatInt (v : Int) (hlo : -(2 : Int) ^ 63 ≤ v) (hhi : v < (2 : Int) ^ 63) :
    Atoi (formatInt v) = some v := by
  obtain ⟨hne, hdig, hval⟩ := formatNat_spec v.natAbs
  unfold formatInt
  split
  · next hneg =>
    simp only [Atoi, if_true, hval]
    have hb : v.natAbs ≤ 2 ^ 63 := by omega
    rw [if_pos hb]
    congr 1
    omega
  · next hpos =>
    cases hf : formatNat v.natAbs with
    | nil => exact absurd hf hne
    | cons c cs =>
      obtain ⟨d, hd⟩ := hdig c (by rw [hf]; exact List.mem_cons_self _ _)
      obtain ⟨_, hm, hp⟩ := digitValue_some_facts c d hd
      simp only [Atoi, hm, hp, if_false]
      rw [← hf, hval]
      have hb : v.natAbs < 2 ^ 63 := by omega
      simp only
      rw [if_pos hb]
      congr 1
      omega

/-! ## Theorems: lines and fields -/

theorem Fields_token (tok : String) (htok : isToken tok = true) : Fields tok = [tok] := by
  have hne := isToken_ne_nil tok htok
  have hsp := isToken_not_space tok htok
  have h := fieldsAux_append_token tok.data hsp [] []
  simp only [List.append_nil] at h
  unfold Fields
  rw [h]
  cases hr : tok.data.reverse with
  | nil => exact absurd (by simpa using hr) hne
  | cons c cs =>
    have : (c :: cs).reverse = tok.data := by rw [← hr]; simp
    simp [fieldsAux, this]

theorem Fields_space_append (suf : String) : Fields (" " ++ suf) = Fields suf := by
  have h : (" " ++ suf).data = ' ' :: suf.data := by simp [String.data_append]
  unfold Fields
  rw [h]
  have hs : IsSpace ' ' = true := by decide
  simp [fieldsAux, hs]

theorem Fields_token_space (tok rest : String) (htok : isToken tok = true) :
    Fields (tok ++ (" " ++ rest)) = tok :: Fields rest := by
  have h : (" " ++ rest).data = ' ' :: rest.data := by simp [String.data_append]
  rw [Fields_token_append tok (" " ++ rest) htok ' ' rest.data h (by decide),
    Fields_space_append]

/-- Tokens joined by single spaces are split back into the same tokens. -/
theorem Fields_joinTokens (ts : List String) (h : ∀ t ∈ ts, isToken t = true) :
    Fields (joinTokens ts) = ts := by
  induction ts with
  | nil => rfl
  | cons t ts ih =>
    cases ts with
    | nil => exact Fields_token t (h t (List.mem_cons_self _ _))
    | cons u us =>
      simp only [joinTokens]
      rw [Fields_token_space t _ (h t (List.mem_cons_self _ _)),
        ih (fun x hx => h x (List.mem_cons_of_mem _ hx))]

theorem joinTokens_no_newline (ts : List String) (h : ∀ t ∈ ts, isToken t = true) :
    ∀ c ∈ (joinTokens ts).data, c ≠ '\n' := by
  induction ts with
  | nil => intro c hc; simp [joinTokens] at hc
  | cons t ts ih =>
    have ht := not_newline_of_not_space _
      (isToken_not_space t (h t (List.mem_cons_self _ _)))
    cases ts with
    | nil => exact ht
    | cons u us =>
      intro c hc
      simp only [joinTokens, String.data_append, List.mem_append] at hc
      rcases hc with hc | hc | hc
      · exact ht c hc
      · have : c = ' ' := by simpa using hc
        rw [this]; decide
      · exact ih (fun x hx => h x (List.mem_cons_of_mem _ hx)) c hc

theorem joinTokens_last (ts : List String) (hne : ts ≠ []) (h : ∀ t ∈ ts, isToken t = true) :
    (joinTokens ts).data ≠ [] ∧ (joinTokens ts).data.getLast? ≠ some '\r' := by
  induction ts with
  | nil => exact absurd rfl hne
  | cons t ts ih =>
    cases ts with
    | nil =>
      have ht := h t (List.mem_cons_self _ _)
      refine ⟨isToken_ne_nil t ht, ?_⟩
      intro hl
      have hmem : '\r' ∈ (joinTokens [t]).data := List.mem_of_getLast?_eq_some hl
      have := isToken_not_space t ht '\r' hmem
      exact absurd this (by decide)
    | cons u us =>
      obtain ⟨hne2, hlast⟩ := ih (by simp) (fun x hx => h x (List.mem_cons_of_mem _ hx))
      simp only [joinTokens, String.data_append]
      refine ⟨?_, ?_⟩
      · simp
      · rw [getLast?_append_of_ne_nil _ _ (by simp),
          getLast?_append_of_ne_nil _ _ hne2]
        exact hlast

theorem scanLinesAux_cons (c : Char) (cs cur : List Char) :
    scanLinesAux (c :: cs) cur
      = if c = '\n' then String.mk (dropCR cur) :: scanLinesAux cs []
        else scanLinesAux cs (c :: cur) := rfl

theorem scanLinesAux_closed_append (a : List Char) :
    a.getLast? = some '\n' → ∀ (b cur : List Char),
      scanLinesAux (a ++ b) cur = scanLinesAux a cur ++ scanLinesAux b [] := by
  induction a with
  | nil => intro h; simp at h
  | cons c cs ih =>
    intro h b cur
    cases cs with
    | nil =>
      have hc : c = '\n' := by simpa using h
      rw [hc]
      simp [scanLinesAux]
    | cons d ds =>
      have h2 : (d :: ds).getLast? = some '\n' := by
        rw [List.getLast?_cons_cons] at h
        exact h
      rw [List.cons_append, scanLinesAux_cons c (d :: ds ++ b) cur,
        scanLinesAux_cons c (d :: ds) cur]
      by_cases hc : c = '\n'
      · rw [if_pos hc, if_pos hc, ih h2 b []]
        rfl
      · rw [if_neg hc, if_neg hc, ih h2 b (c :: cur)]

/-- Appending a line and its newline to a closed file appends that line to
the lines of the file, and the file stays closed. -/
theorem scanLines_append_line (file l : String) (hfile : isClosed file = true)
    (hnl : ∀ c ∈ l.data, c ≠ '\n') (hcr : l.data.getLast? ≠ some '\r') :
    scanLines (file ++ l ++ "\n") = scanLines file ++ [l]
    ∧ isClosed (file ++ l ++ "\n") = true := by
  constructor
  · have hl := scanLines_line l hnl hcr
    unfold isClosed at hfile
    simp only [Bool.or_eq_true, List.isEmpty_iff, beq_iff_eq] at hfile
    rcases hfile with hfile | hfile
    · have : file = "" := String.ext (by rw [hfile])
      rw [this]
      have h2 : ("" ++ l ++ "\n") = l ++ "\n" := by
        apply String.ext; simp [String.data_append]
      rw [h2, hl]
      rfl
    · have h2 : (file ++ l ++ "\n").data = file.data ++ (l ++ "\n").data := by
        simp [String.data_append]
      unfold scanLines at hl ⊢
      rw [h2, scanLinesAux_closed_append _ hfile, hl]
  · unfold isClosed
    simp [String.data_append]

/-! ## Theorems: reading back what the service logs -/

theorem readLoop_eq_filterMap (L : TimeLayout) (since : Time) (lines : List String) :
    ∀ entries, readLoop L since lines entries
      = entries ++ lines.filterMap (readLine L since) := by
  induction lines with
  | nil => intro entries; simp [readLoop]
  | cons line lines ih =>
    intro entries
    simp only [readLoop, List.filterMap_cons]
    cases readLine L since line with
    | none => exact ih entries
    | some entry => simp [ih]

theorem readEntries_eq_filterMap (L : TimeLayout) (since : Time) (logFile : String) :
    readEntries L since logFile
      = (scanLines logFile).filterMap (readLine L since) := by
  simp [readEntries, readLoop_eq_filterMap]

/-- The line of a request's log entry is its fields joined by spaces. -/
theorem logString_logEntry (L : TimeLayout) (req : Request) :
    logString L req.logEntry
      = match req.call with
        | .Append args =>
          joinTokens [L.Format req.env.logTime, "Append", args.ListID, formatInt args.Value]
        | .Get args =>
          joinTokens [L.Format req.env.logTime, "Get/Size", args.ListID, formatInt args.Index]
        | .Remove args => joinTokens [L.Format req.env.logTime, "Remove", args.ListID]
        | .Size args =>
          joinTokens [L.Format req.env.logTime, "Get/Size", args.ListID, formatInt 0] := by
  have hne : ("Get/Size" = "Append") = False := by decide
  have hre : ("Remove" = "Append") = False := by decide
  have hrg : ("Remove" = "Get/Size") = False := by decide
  cases req with
  | mk call env =>
    cases call <;>
      (simp only [Request.logEntry, logString, joinTokens, hne, hre, hrg, if_true, if_false]
       apply String.ext
       simp only [String.data_append, List.append_assoc])

/-- The line written for a request reads back as the request's log entry. -/
theorem readLine_logString (L : TimeLayout) (since : Time) (req : Request)
    (hsince : since < req.env.logTime)
    (htok : isToken (L.Format req.env.logTime) = true)
    (hparse : L.Parse (L.Format req.env.logTime) = some req.env.logTime)
    (hid : isToken req.call.ListID = true)
    (hval : fitsInt req.logEntry.Value = true) (hidx : fitsInt req.logEntry.Index = true) :
    readLine L since (logString L req.logEntry) = some req.logEntry
    ∧ (∀ c ∈ (logString L req.logEntry).data, c ≠ '\n')
    ∧ (logString L req.logEntry).data.getLast? ≠ some '\r' := by
  have hA : isToken "Append" = true := by decide
  have hG : isToken "Get/Size" = true := by decide
  have hR : isToken "Remove" = true := by decide
  have hne : ("Get/Size" = "Append") = False := by decide
  have hre : ("Remove" = "Append") = False := by decide
  have hrg : ("Remove" = "Get/Size") = False := by decide
  have hfit : ∀ v, fitsInt v = true → Atoi (formatInt v) = some v := by
    intro v hv
    simp only [fitsInt, Bool.and_eq_true, decide_eq_true_eq] at hv
    exact Atoi_formatInt v hv.1 hv.2
  rw [logString_logEntry]
  cases req with
  | mk call env =>
    cases call with
    | Append args =>
      have htoks : ∀ t ∈ [L.Format env.logTime, "Append", args.ListID, formatInt args.Value],
          isToken t = true := by
        intro t ht
        simp only [List.mem_cons, List.mem_singleton, List.not_mem_nil, or_false] at ht
        rcases ht with h | h | h | h <;> rw [h]
        · exact htok
        · exact hA
        · exact hid
        · exact formatInt_isToken _
      refine ⟨?_, joinTokens_no_newline _ htoks, (joinTokens_last _ (by simp) htoks).2⟩
      simp only [readLine]
      rw [Fields_joinTokens _ htoks]
      simp only at hparse hsince
      simp only [hparse]
      rw [if_pos hsince]
      simp [hfit args.Value hval, Request.logEntry]
    | Get args =>
      have htoks : ∀ t ∈ [L.Format env.logTime, "Get/Size", args.ListID, formatInt args.Index],
          isToken t = true := by
        intro t ht
        simp only [List.mem_cons, List.mem_singleton, List.not_mem_nil, or_false] at ht
        rcases ht with h | h | h | h <;> rw [h]
        · exact htok
        · exact hG
        · exact hid
        · exact formatInt_isToken _
      refine ⟨?_, joinTokens_no_newline _ htoks, (joinTokens_last _ (by simp) htoks).2⟩
      simp only [readLine]
      rw [Fields_joinTokens _ htoks]
      simp only at hparse hsince
      simp only [hparse]
      rw [if_pos hsince]
      simp [hfit args.Index hidx, Request.logEntry, hne]
    | Remove args =>
      have htoks : ∀ t ∈ [L.Format env.logTime, "Remove", args.ListID],
          isToken t = true := by
        intro t ht
        simp only [List.mem_cons, List.mem_singleton, List.not_mem_nil, or_false] at ht
        rcases ht with h | h | h <;> rw [h]
        · exact htok
        · exact hR
        · exact hid
      refine ⟨?_, joinTokens_no_newline _ htoks, (joinTokens_last _ (by simp) htoks).2⟩
      simp only [readLine]
      rw [Fields_joinTokens _ htoks]
      simp only at hparse hsince
      simp only [hparse]
      rw [if_pos hsince]
      simp [Request.logEntry, hre, hrg]
    | Size args =>
      have htoks : ∀ t ∈ [L.Format env.logTime, "Get/Size", args.ListID, formatInt 0],
          isToken t = true := by
        intro t ht
        simp only [List.mem_cons, List.mem_singleton, List.not_mem_nil, or_false] at ht
        rcases ht with h | h | h | h <;> rw [h]
        · exact htok
        · exact hG
        · exact hid
        · exact formatInt_isToken _
      refine ⟨?_, joinTokens_no_newline _ htoks, (joinTokens_last _ (by simp) htoks).2⟩
      simp only [readLine]
      rw [Fields_joinTokens _ htoks]
      simp only at hparse hsince
      simp only [hparse]
      rw [if_pos hsince]
      have h0 : Atoi (formatInt 0) = some 0 := by decide
      simp [h0, Request.logEntry, hne]

/-- The state after serving a request whose log write succeeds: the list
method is applied to the store, the tracked timestamp is raised to the
request's `operationTime`, and the line of the request's entry is appended to
the log. -/
theorem serve_logged (L : TimeLayout) (st : ServerState) (req : Request)
    (hopen : req.env.openOk = true) :
    serve L st req
      = { service :=
            { remoteList := st.service.remoteList.call req.call,
              lastLoggedOperationTimestamp :=
                if req.env.operationTime > st.service.lastLoggedOperationTimestamp
                then req.env.operationTime
                else st.service.lastLoggedOperationTimestamp },
          logFile := st.logFile ++ logString L req.logEntry ++ "\n" } := by
  cases req with
  | mk call env =>
    simp only at hopen
    cases call <;>
      (simp only [serve, RemoteListService.Append, RemoteListService.Get,
        RemoteListService.Remove, RemoteListService.Size, logAndTrackWithValue,
        logAndTrackWithoutValue, AppendLog, GetLog, RemoveLog, writeLog, hopen, if_true,
        ServerState.withStore, Request.logEntry, RemoteList.call]
       split <;> rfl)

/-- Replaying the log entry of a request does to the store what the list
method of the request does. -/
theorem replayEntry_logEntry (svc : RemoteListService) (req : Request) :
    (replayEntry svc req.logEntry).remoteList = svc.remoteList.call req.call := by
  have hne : ("Get/Size" = "Append") = False := by decide
  have hre : ("Remove" = "Append") = False := by decide
  have hgr : ("Get/Size" = "Remove") = False := by decide
  cases req with
  | mk call env =>
    cases call with
    | Append args => simp [replayEntry, Request.logEntry, RemoteList.call]
    | Remove args => simp [replayEntry, Request.logEntry, RemoteList.call, hre]
    | Get args =>
      simp only [replayEntry, Request.logEntry, RemoteList.call, hne, hgr, if_false]
      unfold RemoteList.Get
      split
      · rfl
      · split <;> rfl
    | Size args =>
      simp only [replayEntry, Request.logEntry, RemoteList.call, hne, hgr, if_false]
      unfold RemoteList.Size
      split <;> rfl

theorem replay_logEntries_store (reqs : List Request) :
    ∀ svc, (replay svc (reqs.map Request.logEntry)).remoteList
      = reqs.foldl (fun rl req => rl.call req.call) svc.remoteList := by
  induction reqs with
  | nil => intro svc; rfl
  | cons req reqs ih =>
    intro svc
    simp only [List.map_cons, replay, List.foldl_cons]
    have := ih (replayEntry svc req.logEntry)
    simp only [replay] at this
    rw [this, replayEntry_logEntry]

/-- A run whose log writes all succeed, started on a closed log file: the
store is the fold of the list methods, and the log read back from any instant
before all log timestamps is the old log followed by the entries of the
requests in order. -/
theorem run_logged (L : TimeLayout) (since : Time) (reqs : List Request) :
    ∀ st : ServerState, isClosed st.logFile = true →
    (∀ req ∈ reqs, req.env.openOk = true) →
    (∀ req ∈ reqs, since < req.env.logTime) →
    (∀ req ∈ reqs, isToken (L.Format req.env.logTime) = true
      ∧ L.Parse (L.Format req.env.logTime) = some req.env.logTime) →
    (∀ req ∈ reqs, isToken req.call.ListID = true) →
    (∀ req ∈ reqs, fitsInt req.logEntry.Value = true ∧ fitsInt req.logEntry.Index = true) →
    isClosed (run L st reqs).logFile = true
    ∧ (run L st reqs).service.remoteList
        = reqs.foldl (fun rl req => rl.call req.call) st.service.remoteList
    ∧ readEntries L since (run L st reqs).logFile
        = readEntries L since st.logFile ++ reqs.map Request.logEntry := by
  induction reqs with
  | nil =>
    intro st hst _ _ _ _ _
    exact ⟨hst, rfl, by simp [run]⟩
  | cons req reqs ih =>
    intro st hst hopen hclock hlayout hid hint
    have hmem : req ∈ req :: reqs := List.mem_cons_self _ _
    have hsub : ∀ r ∈ reqs, r ∈ req :: reqs := fun r hr => List.mem_cons_of_mem _ hr
    obtain ⟨hline, hnl, hcr⟩ := readLine_logString L since req (hclock req hmem)
      (hlayout req hmem).1 (hlayout req hmem).2 (hid req hmem)
      (hint req hmem).1 (hint req hmem).2
    obtain ⟨hscan, hclosed⟩ := scanLines_append_line st.logFile _ hst hnl hcr
    have hserve := serve_logged L st req (hopen req hmem)
    have hrun : run L st (req :: reqs) = run L (serve L st req) reqs := rfl
    have hst1 : isClosed (serve L st req).logFile = true := by rw [hserve]; exact hclosed
    obtain ⟨h1, h2, h3⟩ := ih (serve L st req) hst1
      (fun r hr => hopen r (hsub r hr)) (fun r hr => hclock r (hsub r hr))
      (fun r hr => hlayout r (hsub r hr)) (fun r hr => hid r (hsub r hr))
      (fun r hr => hint r (hsub r hr))
    rw [hrun]
    refine ⟨h1, ?_, ?_⟩
    · rw [h2, hserve]
      rfl
    · rw [h3, hserve]
      simp only [readEntries_eq_filterMap, hscan, List.filterMap_append, List.filterMap_cons,
        List.filterMap_nil, hline, List.map_cons, List.append_assoc, List.singleton_append]

/-! ## Theorems: the scanner's buffer and the errors of the reader -/

theorem byteLength_append (a b : List Char) :
    byteLength (a ++ b) = byteLength a + byteLength b := by
  induction a with
  | nil => simp [byteLength]
  | cons c cs ih =>
    have h1 : byteLength (c :: (cs ++ b)) = c.utf8Size + byteLength (cs ++ b) := rfl
    have h2 : byteLength (c :: cs) = c.utf8Size + byteLength cs := rfl
    rw [List.cons_append, h1, h2, ih, Nat.add_assoc]

theorem byteLength_replicate_x (n : Nat) : byteLength (List.replicate n 'x') = n := by
  induction n with
  | zero => rfl
  | succ n ih =>
    rw [List.replicate_succ, byteLength, ih]
    have : Char.utf8Size 'x' = 1 := by decide
    omega

theorem errTooLongAux_append_line (l : List Char) (hl : ∀ c ∈ l, c ≠ '\n') :
    ∀ (rest : List Char) (n : Nat),
      errTooLongAux (l ++ rest) n = errTooLongAux rest (n + byteLength l) := by
  induction l with
  | nil => intro rest n; rfl
  | cons c cs ih =>
    intro rest n
    have hc : c ≠ '\n' := hl c (List.mem_cons_self _ _)
    have hcs : ∀ d ∈ cs, d ≠ '\n' := fun d hd => hl d (List.mem_cons_of_mem _ hd)
    have h1 : errTooLongAux (c :: (cs ++ rest)) n = errTooLongAux (cs ++ rest) (n + c.utf8Size) := by
      simp only [errTooLongAux, hc, if_false]
    rw [List.cons_append, h1, ih hcs rest (n + c.utf8Size), byteLength, Nat.add_assoc]

theorem errTooLongAux_cons (c : Char) (cs : List Char) (n : Nat) :
    errTooLongAux (c :: cs) n
      = if c = '\n' then decide (MaxScanTokenSize ≤ n) || errTooLongAux cs 0
        else errTooLongAux cs (n + c.utf8Size) := rfl

theorem errTooLongAux_nil_zero : errTooLongAux [] 0 = false := by decide

theorem errTooLongAux_closed_append (a : List Char) :
    a.getLast? = some '\n' → ∀ (b : List Char) (n : Nat),
      errTooLongAux (a ++ b) n = (errTooLongAux a n || errTooLongAux b 0) := by
  induction a with
  | nil => intro h; simp at h
  | cons c cs ih =>
    intro h b n
    cases cs with
    | nil =>
      have hc : c = '\n' := by simpa using h
      rw [hc, List.singleton_append, errTooLongAux_cons, errTooLongAux_cons, if_pos rfl,
        if_pos rfl, errTooLongAux_nil_zero, Bool.or_false]
    | cons d ds =>
      have h2 : (d :: ds).getLast? = some '\n' := by
        rw [List.getLast?_cons_cons] at h
        exact h
      rw [List.cons_append, errTooLongAux_cons c (d :: ds ++ b) n,
        errTooLongAux_cons c (d :: ds) n]
      by_cases hc : c = '\n'
      · rw [if_pos hc, if_pos hc, ih h2 b 0, Bool.or_assoc]
      · rw [if_neg hc, if_neg hc, ih h2 b (n + c.utf8Size)]

/-- A file made of one line and its newline stops the scanner exactly when
the line has `MaxScanTokenSize` bytes or more. -/
theorem ErrTooLong_line (l : String) (hnl : ∀ c ∈ l.data, c ≠ '\n') :
    ErrTooLong (l ++ "\n") = decide (MaxScanTokenSize ≤ byteLength l.data) := by
  have h1 : (l ++ "\n").data = l.data ++ ['\n'] := by simp [String.data_append]
  unfold ErrTooLong
  rw [h1, errTooLongAux_append_line _ hnl, errTooLongAux_cons, if_pos rfl,
    errTooLongAux_nil_zero, Bool.or_false, Nat.zero_add]

/-- Appending a line and its newline to a closed file: the scanner stops on
the new file exactly when it stops on the old one or the line has
`MaxScanTokenSize` bytes or more. -/
theorem ErrTooLong_append_line (file l : String) (hfile : isClosed file = true)
    (hnl : ∀ c ∈ l.data, c ≠ '\n') :
    ErrTooLong (file ++ l ++ "\n")
      = (ErrTooLong file || decide (MaxScanTokenSize ≤ byteLength l.data)) := by
  have hl := ErrTooLong_line l hnl
  unfold isClosed at hfile
  simp only [Bool.or_eq_true, List.isEmpty_iff, beq_iff_eq] at hfile
  rcases hfile with hfile | hfile
  · have hf : file = "" := String.ext (by rw [hfile])
    rw [hf]
    have h2 : ("" ++ l ++ "\n") = l ++ "\n" := by
      apply String.ext; simp [String.data_append]
    rw [h2, hl]
    rfl
  · have h2 : (file ++ l ++ "\n").data = file.data ++ (l ++ "\n").data := by
      simp [String.data_append]
    unfold ErrTooLong at hl ⊢
    rw [h2, errTooLongAux_closed_append _ hfile, hl]

/-- A closed file followed by more text: the scanner stops on the whole
exactly when it stops on one of the two parts. -/
theorem ErrTooLong_closed_append (a b : String) (ha : isClosed a = true) :
    ErrTooLong (a ++ b) = (ErrTooLong a || ErrTooLong b) := by
  unfold isClosed at ha
  simp only [Bool.or_eq_true, List.isEmpty_iff, beq_iff_eq] at ha
  rcases ha with ha | ha
  · have hf : a = "" := String.ext (by rw [ha])
    rw [hf]
    have h2 : ("" ++ b) = b := by
      apply String.ext; simp [String.data_append]
    rw [h2]
    rfl
  · unfold ErrTooLong
    rw [String.data_append, errTooLongAux_closed_append _ ha]

theorem ReadLogs_ok (L : TimeLayout) (since : Time) (logFile : String)
    (h : ErrTooLong logFile = false) :
    ReadLogsFromTimestamp L since true logFile = (readEntries L since logFile, none) := by
  simp [ReadLogsFromTimestamp, h]

theorem ReadLogs_tooLong (L : TimeLayout) (since : Time) (logFile : String)
    (h : ErrTooLong logFile = true) :
    ReadLogsFromTimestamp L since true logFile = ([], some .readLog) := by
  simp [ReadLogsFromTimestamp, h]

theorem ReadLogs_not_open (L : TimeLayout) (since : Time) (logFile : String) :
    ReadLogsFromTimestamp L since false logFile = ([], some .openLog) := by
  simp [ReadLogsFromTimestamp]

/-- Recovery when the log is read without error: the entries read after the
snapshot's timestamp are replayed onto the snapshot. -/
theorem recover_ok (L : TimeLayout) (snapshotFile : Option SnapshotContent) (logFile : String)
    (h : ErrTooLong logFile = false) :
    recover L snapshotFile true logFile
      = replay ⟨(LoadSnapshot snapshotFile).1, (LoadSnapshot snapshotFile).2⟩
          (readEntries L (LoadSnapshot snapshotFile).2 logFile) := by
  simp only [recover, ReadLogs_ok L _ logFile h]

/-- Recovery when reading the log returns an error: nothing is replayed. -/
theorem recover_error (L : TimeLayout) (snapshotFile : Option SnapshotContent)
    (openOk : Bool) (logFile : String)
    (h : openOk = false ∨ ErrTooLong logFile = true) :
    recover L snapshotFile openOk logFile
      = ⟨(LoadSnapshot snapshotFile).1, (LoadSnapshot snapshotFile).2⟩ := by
  cases openOk with
  | false => simp only [recover, ReadLogs_not_open]
  | true =>
    rcases h with h | h
    · cases h
    · simp only [recover, ReadLogs_tooLong L _ logFile h]

/-! ## Theorems: the service and recovery -/

/-- The state after a service Append whose log write succeeds. -/
theorem serve_append_logged (L : TimeLayout) (st : ServerState) (tOp tLog : Time)
    (args : AppendArgs) :
    serve L st ⟨.Append args, ⟨tOp, tLog, true⟩⟩
      = { service :=
            { remoteList := (st.service.remoteList.Append args).1,
              lastLoggedOperationTimestamp :=
                if tOp > st.service.lastLoggedOperationTimestamp then tOp
                else st.service.lastLoggedOperationTimestamp },
          logFile := st.logFile
            ++ logString L ⟨tLog, "Append", args.ListID, args.Value, 0⟩ ++ "\n" } := by
  simp only [serve, RemoteListService.Append, logAndTrackWithValue, AppendLog, writeLog,
    if_true, ServerState.withStore]
  split <;> rfl

theorem readLoop_nil_of_none (L : TimeLayout) (since : Time) (line : String)
    (h : readLine L since line = none) (entries : List LogEntry) :
    readLoop L since [line] entries = entries := by
  simp [readLoop, h]

theorem readLoop_single_of_some (L : TimeLayout) (since : Time) (line : String)
    (entry : LogEntry) (h : readLine L since line = some entry) (entries : List LogEntry) :
    readLoop L since [line] entries = entries ++ [entry] := by
  simp [readLoop, h]

/-- An acknowledged Append to an identifier with a space is lost. On a fresh
server, for any time layout that writes the log timestamp as one token, the
call Append(`my list`, 5) with a successful log write is acknowledged with
`true` and leaves the live list `my list = [5]`; the log then holds the line
`<timestamp> Append my list 5`, which has five fields, the fourth of them
`list`; recovery with no snapshot skips it, so the recovered store has no
list `my list` and differs from the live store. -/
theorem append_with_space_in_identifier_lost (L : TimeLayout) (tOp tLog : Time)
    (htok : isToken (L.Format tLog) = true) :
    (RemoteListService.Append L (freshServer L) ⟨tOp, tLog, true⟩ ⟨"my list", 5⟩).2 = .ok true
    ∧ (run L (freshServer L)
        [⟨.Append ⟨"my list", 5⟩, ⟨tOp, tLog, true⟩⟩]).service.remoteList.Lists "my list"
        = some ⟨[5]⟩
    ∧ (run L (freshServer L) [⟨.Append ⟨"my list", 5⟩, ⟨tOp, tLog, true⟩⟩]).logFile
        = L.Format tLog ++ " Append my list 5" ++ "\n"
    ∧ (recover L none true (run L (freshServer L)
        [⟨.Append ⟨"my list", 5⟩, ⟨tOp, tLog, true⟩⟩]).logFile).remoteList.Lists "my list"
        = none
    ∧ (recover L none true (run L (freshServer L)
        [⟨.Append ⟨"my list", 5⟩, ⟨tOp, tLog, true⟩⟩]).logFile).remoteList
        ≠ (run L (freshServer L)
            [⟨.Append ⟨"my list", 5⟩, ⟨tOp, tLog, true⟩⟩]).service.remoteList := by
  have hrun : run L (freshServer L) [⟨.Append ⟨"my list", 5⟩, ⟨tOp, tLog, true⟩⟩]
      = serve L (freshServer L) ⟨.Append ⟨"my list", 5⟩, ⟨tOp, tLog, true⟩⟩ := rfl
  have hlive : (serve L (freshServer L)
      ⟨.Append ⟨"my list", 5⟩, ⟨tOp, tLog, true⟩⟩).service.remoteList.Lists "my list"
      = some ⟨[5]⟩ := by
    rw [serve_append_logged, freshServer_eq]
    simp only
    rw [append_absent NewRemoteList "my list" 5 rfl]
    exact store_lists_self _ _ _
  have hfile : (serve L (freshServer L)
      ⟨.Append ⟨"my list", 5⟩, ⟨tOp, tLog, true⟩⟩).logFile
      = L.Format tLog ++ " Append my list 5" ++ "\n" := by
    rw [serve_append_logged, freshServer_eq]
    apply String.ext
    simp only [logString, if_true, String.data_append]
    have h5 : (formatInt 5).data = ['5'] := by decide
    rw [h5]
    simp
  have hscan := scanLines_token_line (L.Format tLog) " Append my list 5" htok
    (by decide) (by decide) (by decide)
  have hfields : Fields (L.Format tLog ++ " Append my list 5")
      = [L.Format tLog, "Append", "my", "list", "5"] := by
    rw [Fields_token_append (L.Format tLog) " Append my list 5" htok ' ' _ rfl (by decide)]
    have : Fields " Append my list 5" = ["Append", "my", "list", "5"] := by decide
    rw [this]
  have hline : readLine L zeroTime (L.Format tLog ++ " Append my list 5") = none := by
    unfold readLine
    rw [hfields]
    simp only
    cases L.Parse (L.Format tLog) with
    | none => rfl
    | some ts =>
      simp only
      split
      · have : Atoi "list" = none := by decide
        simp [this]
      · rfl
  have hrec : (recover L none true (L.Format tLog ++ " Append my list 5" ++ "\n")).remoteList
      = NewRemoteList := by
    cases hlong : ErrTooLong (L.Format tLog ++ " Append my list 5" ++ "\n") with
    | true => rw [recover_error L none true _ (Or.inr hlong)]; rfl
    | false =>
      rw [recover_ok L none _ hlong]
      simp only [LoadSnapshot, readEntries, hscan]
      rw [readLoop_nil_of_none L zeroTime _ hline]
      rfl
  refine ⟨?_, ?_, ?_, ?_, ?_⟩
  · simp [RemoteListService.Append, RemoteList.Append]
  · rw [hrun]; exact hlive
  · rw [hrun]; exact hfile
  · rw [hrun, hfile, hrec]; rfl
  · rw [hrun, hfile, hrec]
    intro h
    have h2 := congrArg (fun rl => rl.Lists "my list") h
    simp only at h2
    rw [hlive] at h2
    cases h2

theorem freshServer_closed (L : TimeLayout) : isClosed (freshServer L).logFile = true := rfl

theorem readEntries_empty (L : TimeLayout) (since : Time) :
    readEntries L since "" = [] := rfl

/-- C6 (log-only durability), amended to identifiers that are non-empty and
free of white space and to a log that is read back without error. For every
sequential run of service calls from a fresh server in which every log write
succeeds, every log timestamp is after the zero time and is written by the
layout as a token that parses back to the same instant, every list identifier
is a non-empty string without white space, every logged integer is a 64-bit
`int`, and the log written has no line of `MaxScanTokenSize` bytes or more:
recovery with no snapshot, the log file opening (empty store, zero watermark,
every log entry after the zero time, replay), yields exactly the store of the
live service at the end of the run. -/
theorem C6_log_only_recovery (L : TimeLayout) (reqs : List Request)
    (hopen : ∀ req ∈ reqs, req.env.openOk = true)
    (hclock : ∀ req ∈ reqs, zeroTime < req.env.logTime)
    (hlayout : ∀ req ∈ reqs, isToken (L.Format req.env.logTime) = true
      ∧ L.Parse (L.Format req.env.logTime) = some req.env.logTime)
    (hid : ∀ req ∈ reqs, isToken req.call.ListID = true)
    (hint : ∀ req ∈ reqs,
      fitsInt req.logEntry.Value = true ∧ fitsInt req.logEntry.Index = true)
    (hscan : ErrTooLong (run L (freshServer L) reqs).logFile = false) :
    (recover L none true (run L (freshServer L) reqs).logFile).remoteList
      = (run L (freshServer L) reqs).service.remoteList := by
  obtain ⟨_, hstore, hread⟩ := run_logged L zeroTime reqs (freshServer L)
    (freshServer_closed L) hopen hclock hlayout hid hint
  rw [hstore, recover_ok L none _ hscan]
  simp only [LoadSnapshot]
  rw [hread, freshServer_eq]
  simp only [readEntries_empty, List.nil_append]
  exact replay_logEntries_store reqs _

/-- Witness for C6: the sample run under the RFC 3339 layout in UTC; the
recovered store is the live store, with `a = [1]`. -/
theorem C6_log_only_recovery_witness :
    (recover rfc3339UTC none true
        (run rfc3339UTC (freshServer rfc3339UTC) sampleRun).logFile).remoteList
      = (run rfc3339UTC (freshServer rfc3339UTC) sampleRun).service.remoteList
    ∧ (run rfc3339UTC (freshServer rfc3339UTC) sampleRun).service.remoteList.Lists "a"
      = some ⟨[1]⟩ :=
  ⟨C6_log_only_recovery rfc3339UTC sampleRun (by decide) (by decide) (by decide)
    (by decide) (by decide) (by decide), by decide⟩

/-- Counterexample to C6 as stated: the call Append(`my list`, 5) on a fresh
server, the clock reading 2024-05-01T10:00:00.000000001Z and then
...002Z, its log write succeeding. The call is acknowledged; the live store
holds `my list = [5]`; the log holds one line of five fields; the store
recovered from the log alone has no list `my list`. -/
theorem C6_identifier_with_space_counterexample :
    (RemoteListService.Append rfc3339UTC (freshServer rfc3339UTC)
        ⟨sampleInstant 1, sampleInstant 2, true⟩ ⟨"my list", 5⟩).2 = .ok true
    ∧ (run rfc3339UTC (freshServer rfc3339UTC)
        [⟨.Append ⟨"my list", 5⟩, ⟨sampleInstant 1, sampleInstant 2, true⟩⟩]).logFile
        = "2024-05-01T10:00:00.000000002Z Append my list 5\n"
    ∧ (run rfc3339UTC (freshServer rfc3339UTC)
        [⟨.Append ⟨"my list", 5⟩,
          ⟨sampleInstant 1, sampleInstant 2, true⟩⟩]).service.remoteList.Lists "my list"
        = some ⟨[5]⟩
    ∧ (recover rfc3339UTC none true (run rfc3339UTC (freshServer rfc3339UTC)
        [⟨.Append ⟨"my list", 5⟩,
          ⟨sampleInstant 1, sampleInstant 2, true⟩⟩]).logFile).remoteList.Lists "my list"
        = none
    ∧ (recover rfc3339UTC none true (run rfc3339UTC (freshServer rfc3339UTC)
        [⟨.Append ⟨"my list", 5⟩,
          ⟨sampleInstant 1, sampleInstant 2, true⟩⟩]).logFile).remoteList
        ≠ (run rfc3339UTC (freshServer rfc3339UTC)
            [⟨.Append ⟨"my list", 5⟩,
              ⟨sampleInstant 1, sampleInstant 2, true⟩⟩]).service.remoteList :=
  ⟨(append_with_space_in_identifier_lost rfc3339UTC (sampleInstant 1) (sampleInstant 2)
      (by decide)).1,
   by decide,
   (append_with_space_in_identifier_lost rfc3339UTC (sampleInstant 1) (sampleInstant 2)
      (by decide)).2.1,
   (append_with_space_in_identifier_lost rfc3339UTC (sampleInstant 1) (sampleInstant 2)
      (by decide)).2.2.2.1,
   (append_with_space_in_identifier_lost rfc3339UTC (sampleInstant 1) (sampleInstant 2)
      (by decide)).2.2.2.2⟩

/-- C7 (snapshot plus log recovery) fails by applying an entry twice. On a
fresh server, for any time layout that writes the log timestamp as one token
and reads it back, take one call Append(`a`, 1) whose two clock readings
differ (`tOp` read by logAndTrackWithValue, then `tLog > tOp` read by
AppendLog) and whose log line fits the scanner's buffer, then a snapshot
tick. The live list is `a = [1]`; the snapshot holds `a = [1]` with a
timestamp earlier than `tLog`; recovery from that snapshot and the log, read
without error, returns the entry again and yields `a = [1, 1]`. -/
theorem C7_snapshot_recovery_applies_append_twice (L : TimeLayout) (tOp tLog : Time)
    (hclock : tOp < tLog) (hpos : zeroTime < tLog)
    (htok : isToken (L.Format tLog) = true)
    (hparse : L.Parse (L.Format tLog) = some tLog)
    (hfits : ErrTooLong (run L (freshServer L)
      [⟨.Append ⟨"a", 1⟩, ⟨tOp, tLog, true⟩⟩]).logFile = false) :
    (run L (freshServer L)
        [⟨.Append ⟨"a", 1⟩, ⟨tOp, tLog, true⟩⟩]).service.remoteList.Lists "a" = some ⟨[1]⟩
    ∧ (run L (freshServer L)
        [⟨.Append ⟨"a", 1⟩, ⟨tOp, tLog, true⟩⟩]).service.lastLoggedOperationTimestamp < tLog
    ∧ ReadLogsFromTimestamp L
        (run L (freshServer L)
          [⟨.Append ⟨"a", 1⟩, ⟨tOp, tLog, true⟩⟩]).service.lastLoggedOperationTimestamp
        true (run L (freshServer L) [⟨.Append ⟨"a", 1⟩, ⟨tOp, tLog, true⟩⟩]).logFile
        = ([⟨tLog, "Append", "a", 1, 0⟩], none)
    ∧ (recover L
        (snapshotTick (run L (freshServer L) [⟨.Append ⟨"a", 1⟩, ⟨tOp, tLog, true⟩⟩]))
        true (run L (freshServer L)
          [⟨.Append ⟨"a", 1⟩, ⟨tOp, tLog, true⟩⟩]).logFile).remoteList.Lists "a"
        = some ⟨[1, 1]⟩
    ∧ (recover L
        (snapshotTick (run L (freshServer L) [⟨.Append ⟨"a", 1⟩, ⟨tOp, tLog, true⟩⟩]))
        true
        (run L (freshServer L) [⟨.Append ⟨"a", 1⟩, ⟨tOp, tLog, true⟩⟩]).logFile).remoteList
        ≠ (run L (freshServer L)
            [⟨.Append ⟨"a", 1⟩, ⟨tOp, tLog, true⟩⟩]).service.remoteList := by
  have hrun : run L (freshServer L) [⟨.Append ⟨"a", 1⟩, ⟨tOp, tLog, true⟩⟩]
      = { service :=
            { remoteList := NewRemoteList.store "a" ⟨[1]⟩,
              lastLoggedOperationTimestamp := if tOp > zeroTime then tOp else zeroTime },
          logFile := L.Format tLog ++ " Append a 1" ++ "\n" } := by
    have h0 : run L (freshServer L) [⟨.Append ⟨"a", 1⟩, ⟨tOp, tLog, true⟩⟩]
        = serve L (freshServer L) ⟨.Append ⟨"a", 1⟩, ⟨tOp, tLog, true⟩⟩ := rfl
    rw [h0, serve_append_logged, freshServer_eq]
    simp only
    rw [append_absent NewRemoteList "a" 1 rfl]
    congr 1
    apply String.ext
    simp only [logString, if_true, String.data_append]
    have h1 : (formatInt 1).data = ['1'] := by decide
    rw [h1]
    simp
  have hw : (if tOp > zeroTime then tOp else zeroTime) < tLog := by
    split
    · exact hclock
    · exact hpos
  have hscan := scanLines_token_line (L.Format tLog) " Append a 1" htok
    (by decide) (by decide) (by decide)
  have hfields : Fields (L.Format tLog ++ " Append a 1") = [L.Format tLog, "Append", "a", "1"] := by
    rw [Fields_token_append (L.Format tLog) " Append a 1" htok ' ' _ rfl (by decide)]
    have : Fields " Append a 1" = ["Append", "a", "1"] := by decide
    rw [this]
  have hline : readLine L (if tOp > zeroTime then tOp else zeroTime)
      (L.Format tLog ++ " Append a 1") = some ⟨tLog, "Append", "a", 1, 0⟩ := by
    unfold readLine
    rw [hfields]
    simp only [hparse]
    rw [if_pos hw]
    have h1 : Atoi "1" = some 1 := by decide
    simp [h1]
  rw [hrun] at hfits
  simp only at hfits
  have hentries : readEntries L (if tOp > zeroTime then tOp else zeroTime)
      (L.Format tLog ++ " Append a 1" ++ "\n") = [⟨tLog, "Append", "a", 1, 0⟩] := by
    simp only [readEntries, hscan]
    rw [readLoop_single_of_some L _ _ _ hline]
    rfl
  have hread : ReadLogsFromTimestamp L (if tOp > zeroTime then tOp else zeroTime) true
      (L.Format tLog ++ " Append a 1" ++ "\n") = ([⟨tLog, "Append", "a", 1, 0⟩], none) := by
    rw [ReadLogs_ok L _ _ hfits, hentries]
  have hrec : (recover L
      (snapshotTick
        { service :=
            { remoteList := NewRemoteList.store "a" ⟨[1]⟩,
              lastLoggedOperationTimestamp := if tOp > zeroTime then tOp else zeroTime },
          logFile := L.Format tLog ++ " Append a 1" ++ "\n" })
      true (L.Format tLog ++ " Append a 1" ++ "\n")).remoteList
      = NewRemoteList.store "a" ⟨[1, 1]⟩ := by
    rw [recover_ok L _ _ hfits]
    simp only [snapshotTick, SaveSnapshot, LoadSnapshot, hentries, replay,
      List.foldl_cons, List.foldl_nil, replayEntry, if_true]
    rw [append_present _ "a" 1 ⟨[1]⟩ (store_lists_self _ _ _)]
    simp [store_store]
  rw [hrun]
  refine ⟨store_lists_self _ _ _, hw, hread, ?_, ?_⟩
  · simp only []
    rw [hrec]
    exact store_lists_self _ _ _
  · simp only []
    rw [hrec]
    intro h
    have h2 := congrArg (fun rl => rl.Lists "a") h
    simp only [store_lists_self] at h2
    cases h2

/-- Witness for C7: the RFC 3339 layout in UTC, the clock reading
2024-05-01T10:00:00.000000001Z in logAndTrackWithValue and ...002Z in
AppendLog. The live list is `a = [1]`, the recovered list `a = [1, 1]`. -/
theorem C7_snapshot_recovery_applies_append_twice_witness :
    (run rfc3339UTC (freshServer rfc3339UTC)
        [⟨.Append ⟨"a", 1⟩,
          ⟨sampleInstant 1, sampleInstant 2, true⟩⟩]).service.remoteList.Lists "a"
        = some ⟨[1]⟩
    ∧ (run rfc3339UTC (freshServer rfc3339UTC)
        [⟨.Append ⟨"a", 1⟩, ⟨sampleInstant 1, sampleInstant 2, true⟩⟩]).logFile
        = "2024-05-01T10:00:00.000000002Z Append a 1\n"
    ∧ (run rfc3339UTC (freshServer rfc3339UTC)
        [⟨.Append ⟨"a", 1⟩,
          ⟨sampleInstant 1, sampleInstant 2, true⟩⟩]).service.lastLoggedOperationTimestamp
        = sampleInstant 1
    ∧ (recover rfc3339UTC
        (snapshotTick (run rfc3339UTC (freshServer rfc3339UTC)
          [⟨.Append ⟨"a", 1⟩, ⟨sampleInstant 1, sampleInstant 2, true⟩⟩]))
        true (run rfc3339UTC (freshServer rfc3339UTC)
          [⟨.Append ⟨"a", 1⟩,
            ⟨sampleInstant 1, sampleInstant 2, true⟩⟩]).logFile).remoteList.Lists "a"
        = some ⟨[1, 1]⟩ :=
  ⟨(C7_snapshot_recovery_applies_append_twice rfc3339UTC (sampleInstant 1) (sampleInstant 2)
      (by decide) (by decide) (by decide) (by decide) (by decide)).1,
   by decide, by decide,
   (C7_snapshot_recovery_applies_append_twice rfc3339UTC (sampleInstant 1) (sampleInstant 2)
      (by decide) (by decide) (by decide) (by decide) (by decide)).2.2.2.1⟩

/-! ## Theorems: reading and replaying the log -/

/-- The loop body of ReadLogsFromTimestamp is the watermark-free reading of
the line followed by the test of the timestamp against the watermark. -/
theorem readLine_eq_parsedLine (L : TimeLayout) (since : Time) (line : String) :
    readLine L since line
      = (parsedLine L line).filter (fun e => decide (e.Timestamp > since)) := by
  unfold readLine parsedLine
  rcases hf : Fields line with _ | ⟨p0, _ | ⟨p1, _ | ⟨p2, rest⟩⟩⟩
  · simp
  · simp
  · simp
  · simp only [List.length_cons, List.getD_cons_zero, List.getD_cons_succ]
    have hlen : ¬ (rest.length + 1 + 1 + 1 < 3) := by omega
    rw [if_neg hlen]
    cases hp : L.Parse p0 with
    | none => simp
    | some timestamp =>
      simp only
      by_cases hA : p1 = "Append"
      · rcases rest with _ | ⟨p3, more⟩
        · simp [hA]
        · cases ha : Atoi p3 <;> simp [hA, ha, Option.filter]
      · by_cases hG : p1 = "Get/Size"
        · rcases rest with _ | ⟨p3, more⟩
          · simp [hG, Option.filter]
          · cases ha : Atoi p3 <;> simp [hG, ha, Option.filter]
        · simp [hA, hG, Option.filter]

theorem replay_append (svc : RemoteListService) (a b : List LogEntry) :
    replay svc (a ++ b) = replay (replay svc a) b := by
  simp [replay, List.foldl_append]

theorem replayEntry_store_congr (svc1 svc2 : RemoteListService) (entry : LogEntry)
    (h : svc1.remoteList = svc2.remoteList) :
    (replayEntry svc1 entry).remoteList = (replayEntry svc2 entry).remoteList := by
  simp only [replayEntry, h]

/-- The store that replay produces depends on the store it starts from, not
on the tracked timestamp. -/
theorem replay_store_congr (entries : List LogEntry) :
    ∀ (svc1 svc2 : RemoteListService), svc1.remoteList = svc2.remoteList →
      (replay svc1 entries).remoteList = (replay svc2 entries).remoteList := by
  induction entries with
  | nil => intro svc1 svc2 h; exact h
  | cons entry entries ih =>
    intro svc1 svc2 h
    simp only [replay, List.foldl_cons]
    exact ih _ _ (replayEntry_store_congr svc1 svc2 entry h)

/-- A list sorted by timestamp is its entries up to `w` followed by its
entries after `w`. -/
theorem sorted_split (w : Time) (entries : List LogEntry) :
    (entries.map LogEntry.Timestamp).Pairwise (fun a b => a ≤ b) →
      entries = entries.filter (fun e => decide (e.Timestamp ≤ w))
        ++ entries.filter (fun e => decide (e.Timestamp > w)) := by
  induction entries with
  | nil => intro _; rfl
  | cons e es ih =>
    intro hs
    simp only [List.map_cons, List.pairwise_cons] at hs
    obtain ⟨hhead, htail⟩ := hs
    by_cases hw : e.Timestamp ≤ w
    · have hnot : ¬ (e.Timestamp > w) := not_lt.mpr hw
      simp only [List.filter_cons, hw, hnot, decide_True, decide_False, if_true,
        Bool.false_eq_true, if_false, List.cons_append]
      exact congrArg (List.cons e) (ih htail)
    · have hgt : e.Timestamp > w := lt_of_not_le hw
      have hall : ∀ x ∈ es, x.Timestamp > w := by
        intro x hx
        have := hhead x.Timestamp (List.mem_map_of_mem _ hx)
        exact lt_of_lt_of_le hgt this
      have h1 : es.filter (fun e => decide (e.Timestamp ≤ w)) = [] := by
        rw [List.filter_eq_nil_iff]
        intro x hx
        have := hall x hx
        simp only [decide_eq_true_eq, not_le]
        exact this
      have h2 : es.filter (fun e => decide (e.Timestamp > w)) = es := by
        rw [List.filter_eq_self]
        intro x hx
        simpa using hall x hx
      simp only [List.filter_cons, hw, hgt, decide_True, decide_False, if_true,
        Bool.false_eq_true, if_false, h1, h2, List.nil_append]

/-- A line read with one watermark is read with any other watermark as the
same entry, kept when its timestamp is after that watermark. -/
theorem readLine_since (L : TimeLayout) (s1 s2 : Time) (line : String) (e : LogEntry)
    (h : readLine L s1 line = some e) :
    readLine L s2 line = if e.Timestamp > s2 then some e else none := by
  rw [readLine_eq_parsedLine] at h ⊢
  cases hp : parsedLine L line with
  | none => rw [hp] at h; simp [Option.filter] at h
  | some e2 =>
    rw [hp] at h
    simp only [Option.filter] at h ⊢
    split at h
    · cases h
      by_cases hgt : e.Timestamp > s2 <;> simp [hgt]
    · cases h

theorem filterMap_readLine_since (L : TimeLayout) (w : Time) (lines : List String)
    (hwf : ∀ line ∈ lines, (readLine L zeroTime line).isSome = true) :
    lines.filterMap (readLine L w)
      = (lines.filterMap (readLine L zeroTime)).filter (fun e => decide (e.Timestamp > w)) := by
  induction lines with
  | nil => rfl
  | cons line lines ih =>
    have ih2 := ih (fun l hl => hwf l (List.mem_cons_of_mem _ hl))
    have hsome := hwf line (List.mem_cons_self _ _)
    obtain ⟨e, he⟩ := Option.isSome_iff_exists.mp hsome
    have hw := readLine_since L zeroTime w line e he
    simp only [List.filterMap_cons, he, hw]
    by_cases hgt : e.Timestamp > w
    · simp [hgt, ih2]
    · simp [hgt, ih2]

/-- C8 (replay convergence). For a log in which every line is well formed and
stamped after the zero time, with the entries in non-decreasing timestamp
order, and any watermark `w`: if the snapshot's store is the result of
replaying onto the empty store exactly the entries with timestamp `<= w`,
then recovery from that snapshot (replaying ReadLogsFromTimestamp(w) onto the
snapshot's store) and recovery from the log alone (replaying
ReadLogsFromTimestamp(zero) onto the empty store) yield the same store. This
holds whether or not the read of the log ends without error. -/
theorem C8_replay_convergence (L : TimeLayout) (openOk : Bool) (logFile : String) (w : Time)
    (snapshotStore : RemoteList)
    (hwf : ∀ line ∈ scanLines logFile, (readLine L zeroTime line).isSome = true)
    (hsorted : ((ReadLogsFromTimestamp L zeroTime openOk logFile).1.map
      LogEntry.Timestamp).Pairwise (fun a b => a ≤ b))
    (hsnap : snapshotStore
      = (replay ⟨NewRemoteList, zeroTime⟩
          ((ReadLogsFromTimestamp L zeroTime openOk logFile).1.filter
            (fun e => decide (e.Timestamp ≤ w)))).remoteList) :
    (recover L (some ⟨snapshotStore, w⟩) openOk logFile).remoteList
      = (recover L none openOk logFile).remoteList := by
  by_cases herr : openOk = false ∨ ErrTooLong logFile = true
  · have hnil : (ReadLogsFromTimestamp L zeroTime openOk logFile).1 = [] := by
      rcases herr with h | h
      · rw [h, ReadLogs_not_open]
      · cases openOk with
        | false => rw [ReadLogs_not_open]
        | true => rw [ReadLogs_tooLong L _ _ h]
    rw [hnil] at hsnap
    rw [recover_error L _ openOk logFile herr, recover_error L _ openOk logFile herr, hsnap]
    rfl
  · have hopen : openOk = true := by
      cases openOk with
      | false => exact absurd (Or.inl rfl) herr
      | true => rfl
    have hfits : ErrTooLong logFile = false := by
      cases h : ErrTooLong logFile with
      | false => rfl
      | true => exact absurd (Or.inr h) herr
    subst hopen
    rw [ReadLogs_ok L _ _ hfits] at hsorted hsnap
    simp only at hsorted hsnap
    have hread : readEntries L w logFile
        = (readEntries L zeroTime logFile).filter
            (fun e => decide (e.Timestamp > w)) := by
      rw [readEntries_eq_filterMap, readEntries_eq_filterMap]
      exact filterMap_readLine_since L w _ hwf
    have hsplit := sorted_split w (readEntries L zeroTime logFile) hsorted
    rw [recover_ok L _ _ hfits, recover_ok L _ _ hfits]
    simp only [LoadSnapshot]
    rw [hread]
    conv_rhs => rw [hsplit, replay_append]
    apply replay_store_congr
    exact hsnap

/-- Witness for C8: the log `Append a 1`, `Append a 2`, `Remove a` stamped
1, 2 and 3 nanoseconds after 2024-05-01T10:00:00Z, with the snapshot
`a = [1, 2]` taken at the timestamp of `Append a 2`: recovery from the
snapshot reads only `Remove a`, and both recoveries give `a = [1]`. -/
theorem C8_replay_convergence_witness :
    (recover rfc3339UTC (some ⟨NewRemoteList.store "a" ⟨[1, 2]⟩, sampleInstant 2⟩)
        true sampleLog).remoteList
      = (recover rfc3339UTC none true sampleLog).remoteList
    ∧ ReadLogsFromTimestamp rfc3339UTC (sampleInstant 2) true sampleLog
        = ([⟨sampleInstant 3, "Remove", "a", 0, 0⟩], none)
    ∧ (recover rfc3339UTC none true sampleLog).remoteList.Lists "a" = some ⟨[1]⟩ :=
  ⟨C8_replay_convergence rfc3339UTC true sampleLog (sampleInstant 2)
      (NewRemoteList.store "a" ⟨[1, 2]⟩) (by decide) (by decide)
      (by
        have hr : (ReadLogsFromTimestamp rfc3339UTC zeroTime true sampleLog).1.filter
              (fun e => decide (e.Timestamp ≤ sampleInstant 2))
            = [⟨sampleInstant 1, "Append", "a", 1, 0⟩,
               ⟨sampleInstant 2, "Append", "a", 2, 0⟩] := by decide
        rw [hr]
        simp only [replay, List.foldl_cons, List.foldl_nil, replayEntry, if_true]
        rw [append_absent NewRemoteList "a" 1 rfl,
          append_present _ "a" 2 ⟨[1]⟩ (store_lists_self _ _ _)]
        simp [store_store]),
   by decide, by decide⟩

theorem mem_longToken (c : Char) (h : c ∈ longToken.data) : c = 'x' := by
  have h2 : c ∈ List.replicate 70000 'x' := h
  exact (List.mem_replicate.mp h2).2

theorem longToken_no_newline : ∀ c ∈ longToken.data, c ≠ '\n' := by
  intro c hc
  rw [mem_longToken c hc]
  decide

theorem longToken_last : longToken.data.getLast? ≠ some '\r' := by
  intro h
  have := mem_longToken _ (List.mem_of_getLast?_eq_some h)
  exact absurd this (by decide)

theorem byteLength_longToken : byteLength longToken.data = 70000 :=
  byteLength_replicate_x 70000

/-- The scanner stops on the sample log with a line of 70000 bytes, whose
lines are the valid Append line and the long line. -/
theorem longLineLog_facts :
    scanLines longLineLog = ["2024-05-01T10:00:00.000000001Z Append a 1", longToken]
    ∧ ErrTooLong longLineLog = true := by
  have hclosed : isClosed "2024-05-01T10:00:00.000000001Z Append a 1\n" = true := by decide
  constructor
  · have h := (scanLines_append_line "2024-05-01T10:00:00.000000001Z Append a 1\n"
      longToken hclosed longToken_no_newline longToken_last).1
    have h1 : scanLines "2024-05-01T10:00:00.000000001Z Append a 1\n"
        = ["2024-05-01T10:00:00.000000001Z Append a 1"] := by decide
    rw [h1] at h
    exact h
  · have h := ErrTooLong_append_line "2024-05-01T10:00:00.000000001Z Append a 1\n"
      longToken hclosed longToken_no_newline
    rw [byteLength_longToken] at h
    have h1 : decide (MaxScanTokenSize ≤ 70000) = true := by decide
    rw [h1, Bool.or_true] at h
    exact h

/-- C9 (what ReadLogsFromTimestamp returns), amended to a log that is read
without error. For every log file content in which no line has
`MaxScanTokenSize` (64 KiB) bytes or more, the file opening, and every
watermark `w`, the entries returned are, in file order, the entries of the
lines that parse (at least three fields, a timestamp first, an integer
payload for Append, an integer payload if any for Get/Size) whose timestamp is
strictly after `w`, and nothing else, with a nil error. When some line has
`MaxScanTokenSize` bytes or more, or the file does not open, an error and no
entry are returned. In every case each returned entry is stamped after `w`;
and in the scanning loop a line that fails to parse contributes no entry and
leaves the entries of the other lines as they are. -/
theorem C9_read_logs_characterisation (L : TimeLayout) (w : Time) (logFile : String) :
    (ErrTooLong logFile = false →
      ReadLogsFromTimestamp L w true logFile
        = (((scanLines logFile).filterMap (parsedLine L)).filter
            (fun e => decide (e.Timestamp > w)), none))
    ∧ (ErrTooLong logFile = true →
      ReadLogsFromTimestamp L w true logFile = ([], some .readLog))
    ∧ ReadLogsFromTimestamp L w false logFile = ([], some .openLog)
    ∧ (∀ openOk, ∀ entry ∈ (ReadLogsFromTimestamp L w openOk logFile).1,
        entry.Timestamp > w)
    ∧ (∀ (pre post : List String) (bad : String), parsedLine L bad = none →
        readLoop L w (pre ++ bad :: post) [] = readLoop L w (pre ++ post) []) := by
  have hfun : readLine L w
      = fun line => (parsedLine L line).filter (fun e => decide (e.Timestamp > w)) :=
    funext (readLine_eq_parsedLine L w)
  have hmain : readEntries L w logFile
      = ((scanLines logFile).filterMap (parsedLine L)).filter
          (fun e => decide (e.Timestamp > w)) := by
    rw [readEntries_eq_filterMap, hfun, List.filter_filterMap]
  refine ⟨?_, ReadLogs_tooLong L w logFile, ReadLogs_not_open L w logFile, ?_, ?_⟩
  · intro hfits
    rw [ReadLogs_ok L w logFile hfits, hmain]
  · intro openOk entry hentry
    cases openOk with
    | false => rw [ReadLogs_not_open] at hentry; simp at hentry
    | true =>
      cases hlong : ErrTooLong logFile with
      | true => rw [ReadLogs_tooLong L w logFile hlong] at hentry; simp at hentry
      | false =>
        rw [ReadLogs_ok L w logFile hlong] at hentry
        simp only at hentry
        rw [hmain, List.mem_filter] at hentry
        simpa using hentry.2
  · intro pre post bad hbad
    have hnone : readLine L w bad = none := by
      rw [readLine_eq_parsedLine, hbad]
      rfl
    simp [readLoop_eq_filterMap, List.filterMap_append, List.filterMap_cons, hnone]

/-- Witness for C9: a corrupted line (payload `x`) between two valid Append
lines, all three short: both Appends are returned, without error. -/
theorem C9_read_logs_characterisation_witness :
    ErrTooLong corruptedLog = false
    ∧ ReadLogsFromTimestamp rfc3339UTC zeroTime true corruptedLog
      = (((scanLines corruptedLog).filterMap (parsedLine rfc3339UTC)).filter
          (fun e => decide (e.Timestamp > zeroTime)), none)
    ∧ ReadLogsFromTimestamp rfc3339UTC zeroTime true corruptedLog
      = ([⟨sampleInstant 1, "Append", "a", 1, 0⟩, ⟨sampleInstant 3, "Append", "a", 3, 0⟩],
          none)
    ∧ readLoop rfc3339UTC zeroTime
        (["2024-05-01T10:00:00.000000001Z Append a 1"]
          ++ "2024-05-01T10:00:00.000000002Z Append a x"
            :: ["2024-05-01T10:00:00.000000003Z Append a 3"]) []
      = readLoop rfc3339UTC zeroTime
        (["2024-05-01T10:00:00.000000001Z Append a 1"]
          ++ ["2024-05-01T10:00:00.000000003Z Append a 3"]) [] :=
  ⟨by decide,
   (C9_read_logs_characterisation rfc3339UTC zeroTime corruptedLog).1 (by decide),
   by decide,
   (C9_read_logs_characterisation rfc3339UTC zeroTime "").2.2.2.2
      ["2024-05-01T10:00:00.000000001Z Append a 1"]
      ["2024-05-01T10:00:00.000000003Z Append a 3"]
      "2024-05-01T10:00:00.000000002Z Append a x" (by decide)⟩

/-- Counterexample to C9 as stated: a log file made of a valid Append line,
stamped after the zero time, and a line of 70000 characters. The first line
parses, yet ReadLogsFromTimestamp returns no entry and an error, because the
scanner stops on the second line. -/
theorem C9_line_too_long_counterexample :
    scanLines longLineLog = ["2024-05-01T10:00:00.000000001Z Append a 1", longToken]
    ∧ parsedLine rfc3339UTC "2024-05-01T10:00:00.000000001Z Append a 1"
        = some ⟨sampleInstant 1, "Append", "a", 1, 0⟩
    ∧ zeroTime < sampleInstant 1
    ∧ ReadLogsFromTimestamp rfc3339UTC zeroTime true longLineLog = ([], some .readLog) :=
  ⟨longLineLog_facts.1, by decide, by decide,
   ReadLogs_tooLong rfc3339UTC zeroTime longLineLog longLineLog_facts.2⟩

/-- Counterexample to C10 as stated: under the zero watermark, an Append line
with five fields, a Remove line with four fields and a Get/Size line with five
fields each yield an entry. -/
theorem C10_extra_fields_counterexample :
    ((Fields "2024-05-01T10:00:00.000000005Z Append a 1 junk").length = 5
      ∧ ReadLogsFromTimestamp rfc3339UTC zeroTime true
          "2024-05-01T10:00:00.000000005Z Append a 1 junk\n"
          = ([⟨sampleInstant 5, "Append", "a", 1, 0⟩], none))
    ∧ ((Fields "2024-05-01T10:00:00.000000005Z Remove a junk").length = 4
      ∧ ReadLogsFromTimestamp rfc3339UTC zeroTime true
          "2024-05-01T10:00:00.000000005Z Remove a junk\n"
          = ([⟨sampleInstant 5, "Remove", "a", 0, 0⟩], none))
    ∧ ((Fields "2024-05-01T10:00:00.000000005Z Get/Size a 0 junk").length = 5
      ∧ ReadLogsFromTimestamp rfc3339UTC zeroTime true
          "2024-05-01T10:00:00.000000005Z Get/Size a 0 junk\n"
          = ([⟨sampleInstant 5, "Get/Size", "a", 0, 0⟩], none)) := by
  decide

/-- C10 (arity), amended to too few fields. When the log is read without
error, ReadLogsFromTimestamp returns the entries of the loop body line by
line, and in every case, error or not, each entry it returns is the entry of
the loop body on some line of the file; a line with fewer than three fields
yields no entry, and an Append line with fewer than four fields yields no
entry. Fields beyond the fourth are never looked at: two lines that agree on
their first four fields yield the same result; and for an operation other
than Append and Get/Size neither is the fourth. -/
theorem C10_too_few_fields_skipped (L : TimeLayout) (w : Time) (line : String) :
    (∀ logFile,
      (ErrTooLong logFile = false →
        ReadLogsFromTimestamp L w true logFile
          = ((scanLines logFile).filterMap (readLine L w), none))
      ∧ (∀ openOk, ∀ entry ∈ (ReadLogsFromTimestamp L w openOk logFile).1,
          entry ∈ (scanLines logFile).filterMap (readLine L w)))
    ∧ ((Fields line).length < 3 → readLine L w line = none)
    ∧ ((Fields line).get? 1 = some "Append" → (Fields line).length < 4 →
        readLine L w line = none)
    ∧ (∀ line2, (Fields line2).take 4 = (Fields line).take 4 →
        readLine L w line2 = readLine L w line)
    ∧ (∀ line2, (Fields line).get? 1 ≠ some "Append" →
        (Fields line).get? 1 ≠ some "Get/Size" →
        (Fields line2).take 3 = (Fields line).take 3 →
        readLine L w line2 = readLine L w line) := by
  refine ⟨?_, ?_, ?_, ?_, ?_⟩
  · intro logFile
    refine ⟨?_, ?_⟩
    · intro hfits
      rw [ReadLogs_ok L w logFile hfits, readEntries_eq_filterMap]
    · intro openOk entry hentry
      cases openOk with
      | false => rw [ReadLogs_not_open] at hentry; simp at hentry
      | true =>
        cases hlong : ErrTooLong logFile with
        | true => rw [ReadLogs_tooLong L w logFile hlong] at hentry; simp at hentry
        | false =>
          rw [ReadLogs_ok L w logFile hlong, readEntries_eq_filterMap] at hentry
          exact hentry
  · intro hlen
    unfold readLine
    rcases hf : Fields line with _ | ⟨p0, _ | ⟨p1, _ | ⟨p2, rest⟩⟩⟩
    · rfl
    · rfl
    · rfl
    · rw [hf] at hlen
      simp only [List.length_cons] at hlen
      omega
  · intro hop hlen
    unfold readLine
    rcases hf : Fields line with _ | ⟨p0, _ | ⟨p1, _ | ⟨p2, rest⟩⟩⟩
    · rfl
    · rfl
    · rfl
    · rw [hf] at hlen hop
      simp only [List.length_cons] at hlen
      have hrest : rest = [] := by
        cases rest with
        | nil => rfl
        | cons a b =>
          simp only [List.length_cons] at hlen
          omega
      have hp1 : p1 = "Append" := by simpa using hop
      subst hrest
      simp only [hp1]
      cases L.Parse p0 with
      | none => rfl
      | some ts => simp
  · intro line2 htake
    unfold readLine
    rcases hf : Fields line with _ | ⟨p0, _ | ⟨p1, _ | ⟨p2, _ | ⟨p3, more⟩⟩⟩⟩ <;>
      rcases hf2 : Fields line2 with _ | ⟨q0, _ | ⟨q1, _ | ⟨q2, _ | ⟨q3, more2⟩⟩⟩⟩ <;>
      rw [hf, hf2] at htake <;>
      simp only [List.take, List.cons.injEq, and_true, reduceCtorEq, and_false] at htake
    all_goals first
        | rfl
        | (obtain ⟨h0, h1, h2, h3⟩ := htake
           subst h0 h1 h2 h3
           rfl)
        | (obtain ⟨h0, h1, h2⟩ := htake
           subst h0 h1 h2
           rfl)
  · intro line2 hA hG htake
    unfold readLine
    rcases hf : Fields line with _ | ⟨p0, _ | ⟨p1, _ | ⟨p2, rest⟩⟩⟩ <;>
      rcases hf2 : Fields line2 with _ | ⟨q0, _ | ⟨q1, _ | ⟨q2, rest2⟩⟩⟩ <;>
      rw [hf, hf2] at htake <;>
      simp only [List.take, List.cons.injEq, and_true, reduceCtorEq, and_false] at htake
    all_goals first
        | rfl
        | (obtain ⟨h0, h1, h2⟩ := htake
           subst h0 h1 h2
           rw [hf] at hA hG
           have hA2 : ¬ (q1 = "Append") := by simpa using hA
           have hG2 : ¬ (q1 = "Get/Size") := by simpa using hG
           simp only [hA2, hG2, if_false])

/-- Witness for C10: an Append line without payload is skipped, and a line
with a fifth field reads as the line without it. -/
theorem C10_too_few_fields_skipped_witness :
    readLine rfc3339UTC zeroTime "2024-05-01T10:00:00.000000005Z Append a" = none
    ∧ readLine rfc3339UTC zeroTime "2024-05-01T10:00:00.000000005Z Append a 1 junk"
      = readLine rfc3339UTC zeroTime "2024-05-01T10:00:00.000000005Z Append a 1" :=
  ⟨(C10_too_few_fields_skipped rfc3339UTC zeroTime
      "2024-05-01T10:00:00.000000005Z Append a").2.2.1 (by decide) (by decide),
   (C10_too_few_fields_skipped rfc3339UTC zeroTime
      "2024-05-01T10:00:00.000000005Z Append a 1").2.2.2.1
      "2024-05-01T10:00:00.000000005Z Append a 1 junk" (by decide)⟩

/-! ## Theorems: the tracked timestamp -/

theorem replayEntry_timestamp (svc : RemoteListService) (entry : LogEntry) :
    (replayEntry svc entry).lastLoggedOperationTimestamp
      = max svc.lastLoggedOperationTimestamp entry.Timestamp := by
  simp only [replayEntry]
  split
  · next h => exact (max_eq_right (le_of_lt h)).symm
  · next h => exact (max_eq_left (not_lt.mp h)).symm

theorem replay_timestamp (entries : List LogEntry) :
    ∀ svc : RemoteListService, (replay svc entries).lastLoggedOperationTimestamp
      = (entries.map LogEntry.Timestamp).foldl max svc.lastLoggedOperationTimestamp := by
  induction entries with
  | nil => intro svc; rfl
  | cons entry entries ih =>
    intro svc
    simp only [replay, List.foldl_cons, List.map_cons]
    have := ih (replayEntry svc entry)
    simp only [replay] at this
    rw [this, replayEntry_timestamp]

theorem foldl_max_ge (ts : List Time) : ∀ w : Time,
    w ≤ ts.foldl max w ∧ (∀ t ∈ ts, t ≤ ts.foldl max w)
      ∧ (ts.foldl max w = w ∨ ts.foldl max w ∈ ts) := by
  induction ts with
  | nil => intro w; simp
  | cons t ts ih =>
    intro w
    obtain ⟨h1, h2, h3⟩ := ih (max w t)
    simp only [List.foldl_cons]
    refine ⟨le_trans (le_max_left w t) h1, ?_, ?_⟩
    · intro x hx
      rw [List.mem_cons] at hx
      rcases hx with hx | hx
      · rw [hx]; exact le_trans (le_max_right w t) h1
      · exact h2 x hx
    · rcases h3 with h3 | h3
      · rw [h3]
        rcases max_choice w t with hm | hm
        · left; exact hm
        · right; rw [hm]; exact List.mem_cons_self _ _
      · right; exact List.mem_cons_of_mem _ h3

/-- C11 (the tracked timestamp after a logged call) fails. For every service
call whose log write succeeds, when the clock advances between the reading
taken by logAndTrackWithValue or logAndTrackWithoutValue and the reading
taken by AppendLog, RemoveLog or GetLog, and the timestamp tracked before the
call is earlier than the latter: the call appends to the log the line of an
entry stamped with the later reading, and lastLoggedOperationTimestamp after
the call is strictly earlier than that entry's timestamp. -/
theorem C11_tracked_timestamp_earlier_than_entry (L : TimeLayout) (st : ServerState)
    (req : Request) (hopen : req.env.openOk = true)
    (hclock : req.env.operationTime < req.env.logTime)
    (hold : st.service.lastLoggedOperationTimestamp < req.env.logTime) :
    (serve L st req).logFile = st.logFile ++ logString L req.logEntry ++ "\n"
    ∧ req.logEntry.Timestamp = req.env.logTime
    ∧ (serve L st req).service.lastLoggedOperationTimestamp
        = max st.service.lastLoggedOperationTimestamp req.env.operationTime
    ∧ (serve L st req).service.lastLoggedOperationTimestamp < req.logEntry.Timestamp := by
  have hts : req.logEntry.Timestamp = req.env.logTime := by
    cases req with
    | mk call env => cases call <;> rfl
  have hw : (serve L st req).service.lastLoggedOperationTimestamp
      = max st.service.lastLoggedOperationTimestamp req.env.operationTime := by
    rw [serve_logged L st req hopen]
    simp only
    split
    · next h => exact (max_eq_right (le_of_lt h)).symm
    · next h => exact (max_eq_left (not_lt.mp h)).symm
  refine ⟨?_, hts, hw, ?_⟩
  · rw [serve_logged L st req hopen]
  · rw [hw, hts]
    exact max_lt hold hclock

/-- Witness for C11: on a fresh server, Append(`a`, 1) with the clock reading
2024-05-01T10:00:00.000000001Z and then ...002Z: the entry read back from the
log is stamped ...002Z and the tracked timestamp is ...001Z. -/
theorem C11_tracked_timestamp_earlier_than_entry_witness :
    ReadLogsFromTimestamp rfc3339UTC zeroTime true
        (serve rfc3339UTC (freshServer rfc3339UTC)
          ⟨.Append ⟨"a", 1⟩, ⟨sampleInstant 1, sampleInstant 2, true⟩⟩).logFile
      = ([⟨sampleInstant 2, "Append", "a", 1, 0⟩], none)
    ∧ (serve rfc3339UTC (freshServer rfc3339UTC)
        ⟨.Append ⟨"a", 1⟩,
          ⟨sampleInstant 1, sampleInstant 2, true⟩⟩).service.lastLoggedOperationTimestamp
      = sampleInstant 1
    ∧ (serve rfc3339UTC (freshServer rfc3339UTC)
        ⟨.Append ⟨"a", 1⟩,
          ⟨sampleInstant 1, sampleInstant 2, true⟩⟩).service.lastLoggedOperationTimestamp
      < sampleInstant 2 :=
  ⟨by decide, by decide,
   (C11_tracked_timestamp_earlier_than_entry rfc3339UTC (freshServer rfc3339UTC)
      ⟨.Append ⟨"a", 1⟩, ⟨sampleInstant 1, sampleInstant 2, true⟩⟩
      rfl (by decide) (by decide)).2.2.2⟩

/-- C13 (the timestamp after replay). For every initial timestamp `w0` and
every sequence of log entries, the lastLoggedOperationTimestamp after the
replay loop is the maximum of `w0` and the timestamps of the entries: it is at
least `w0` and at least every entry's timestamp, and it is `w0` or the
timestamp of one of the entries. Every entry raises it, whatever its
operation: a Get/Size entry, which leaves the store alone, and a Remove entry
whose application fails because the list is absent, both do. -/
theorem C13_replay_timestamp_is_maximum (rl : RemoteList) (w0 : Time)
    (entries : List LogEntry) :
    (replay ⟨rl, w0⟩ entries).lastLoggedOperationTimestamp
        = (entries.map LogEntry.Timestamp).foldl max w0
    ∧ w0 ≤ (replay ⟨rl, w0⟩ entries).lastLoggedOperationTimestamp
    ∧ (∀ entry ∈ entries,
        entry.Timestamp ≤ (replay ⟨rl, w0⟩ entries).lastLoggedOperationTimestamp)
    ∧ ((replay ⟨rl, w0⟩ entries).lastLoggedOperationTimestamp = w0
        ∨ ∃ entry ∈ entries,
            (replay ⟨rl, w0⟩ entries).lastLoggedOperationTimestamp = entry.Timestamp)
    ∧ (∀ entry : LogEntry, (replayEntry ⟨rl, w0⟩ entry).lastLoggedOperationTimestamp
        = max w0 entry.Timestamp)
    ∧ (∀ (t : Time) (listID : String) (index : Int),
        replayEntry ⟨rl, w0⟩ ⟨t, "Get/Size", listID, 0, index⟩
          = ⟨rl, max w0 t⟩)
    ∧ (∀ (t : Time) (listID : String), rl.Lists listID = none →
        (rl.Remove ⟨listID⟩).2 = .error (.notFound listID)
        ∧ replayEntry ⟨rl, w0⟩ ⟨t, "Remove", listID, 0, 0⟩ = ⟨rl, max w0 t⟩) := by
  have hfold := replay_timestamp entries ⟨rl, w0⟩
  simp only at hfold
  obtain ⟨h1, h2, h3⟩ := foldl_max_ge (entries.map LogEntry.Timestamp) w0
  have hne : ("Get/Size" = "Append") = False := by decide
  have hgr : ("Get/Size" = "Remove") = False := by decide
  have hre : ("Remove" = "Append") = False := by decide
  refine ⟨hfold, ?_, ?_, ?_, ?_, ?_, ?_⟩
  · rw [hfold]; exact h1
  · intro entry hentry
    rw [hfold]
    exact h2 _ (List.mem_map_of_mem _ hentry)
  · rw [hfold]
    rcases h3 with h3 | h3
    · left; exact h3
    · right
      obtain ⟨entry, hentry, heq⟩ := List.mem_map.mp h3
      exact ⟨entry, hentry, heq.symm⟩
  · intro entry
    exact replayEntry_timestamp ⟨rl, w0⟩ entry
  · intro t listID index
    have hts := replayEntry_timestamp ⟨rl, w0⟩ ⟨t, "Get/Size", listID, 0, index⟩
    simp only at hts
    rw [← hts]
    simp [replayEntry, hne, hgr]
  · intro t listID habsent
    have hts := replayEntry_timestamp ⟨rl, w0⟩ ⟨t, "Remove", listID, 0, 0⟩
    simp only at hts
    have hrem : rl.Remove ⟨listID⟩ = (rl, .error (.notFound listID)) := by
      simp [RemoteList.Remove, habsent]
    refine ⟨by rw [hrem], ?_⟩
    rw [← hts]
    simp [replayEntry, hre, hrem]

/-- Witness for C13: replaying the sample log from the empty store and the
zero time leaves the timestamp of its last entry; a Remove entry for an absent
list, which fails, raises the timestamp all the same. -/
theorem C13_replay_timestamp_is_maximum_witness :
    (replay ⟨NewRemoteList, zeroTime⟩
        (ReadLogsFromTimestamp rfc3339UTC zeroTime true
          sampleLog).1).lastLoggedOperationTimestamp
      = sampleInstant 3
    ∧ (NewRemoteList.Remove ⟨"b"⟩).2 = .error (.notFound "b")
    ∧ replayEntry ⟨NewRemoteList, zeroTime⟩ ⟨sampleInstant 4, "Remove", "b", 0, 0⟩
      = ⟨NewRemoteList, max zeroTime (sampleInstant 4)⟩ :=
  ⟨by
    rw [(C13_replay_timestamp_is_maximum NewRemoteList zeroTime
      (ReadLogsFromTimestamp rfc3339UTC zeroTime true sampleLog).1).1]
    decide,
   ((C13_replay_timestamp_is_maximum NewRemoteList zeroTime []).2.2.2.2.2.2
      (sampleInstant 4) "b" rfl).1,
   ((C13_replay_timestamp_is_maximum NewRemoteList zeroTime []).2.2.2.2.2.2
      (sampleInstant 4) "b" rfl).2⟩

/-! ## Theorems: a failing log write -/

/-- The state after serving a request whose log write fails: the list method
is applied to the store; the tracked timestamp and the log are as before. -/
theorem serve_unlogged (L : TimeLayout) (st : ServerState) (req : Request)
    (hopen : req.env.openOk = false) :
    serve L st req
      = { service :=
            { remoteList := st.service.remoteList.call req.call,
              lastLoggedOperationTimestamp := st.service.lastLoggedOperationTimestamp },
          logFile := st.logFile } := by
  cases req with
  | mk call env =>
    simp only at hopen
    cases call <;>
      simp [serve, RemoteListService.Append, RemoteListService.Get,
        RemoteListService.Remove, RemoteListService.Size, logAndTrackWithValue,
        logAndTrackWithoutValue, AppendLog, GetLog, RemoveLog, writeLog, hopen,
        ServerState.withStore, RemoteList.call]

theorem logAndTrackWithValue_store (st : ServerState) (operationTime : Time)
    (logFunc : String → String → Int → Option String) (listID : String) (val : Int) :
    (logAndTrackWithValue st operationTime logFunc listID val).1.service.remoteList
      = st.service.remoteList := by
  unfold logAndTrackWithValue
  split
  · rfl
  · split <;> rfl

theorem logAndTrackWithoutValue_store (st : ServerState) (operationTime : Time)
    (logFunc : String → String → Option String) (listID : String) :
    (logAndTrackWithoutValue st operationTime logFunc listID).1.service.remoteList
      = st.service.remoteList := by
  unfold logAndTrackWithoutValue
  split
  · rfl
  · split <;> rfl

/-- C14 (a failing log write changes nothing for the caller). For every
service call and every state, the reply or error returned and the store after
the call are those of the list method on the store before the call, whether
the log write succeeds or fails; so they are the same in both cases. An Append
whose log write fails is applied to the list and replies `true`, with the log
and the tracked timestamp left as they were. -/
theorem C14_log_failure_not_rolled_back (L : TimeLayout) (st : ServerState)
    (tOp tLog : Time) (openOk : Bool) :
    (∀ args : AppendArgs,
      (RemoteListService.Append L st ⟨tOp, tLog, openOk⟩ args).2
          = (st.service.remoteList.Append args).2
      ∧ (RemoteListService.Append L st ⟨tOp, tLog, openOk⟩ args).1.service.remoteList
          = (st.service.remoteList.Append args).1)
    ∧ (∀ args : GetArgs,
      (RemoteListService.Get L st ⟨tOp, tLog, openOk⟩ args).2
          = (st.service.remoteList.Get args).2
      ∧ (RemoteListService.Get L st ⟨tOp, tLog, openOk⟩ args).1.service.remoteList
          = (st.service.remoteList.Get args).1)
    ∧ (∀ args : RemoveArgs,
      (RemoteListService.Remove L st ⟨tOp, tLog, openOk⟩ args).2
          = (st.service.remoteList.Remove args).2
      ∧ (RemoteListService.Remove L st ⟨tOp, tLog, openOk⟩ args).1.service.remoteList
          = (st.service.remoteList.Remove args).1)
    ∧ (∀ args : SizeArgs,
      (RemoteListService.Size L st ⟨tOp, tLog, openOk⟩ args).2
          = (st.service.remoteList.Size args).2
      ∧ (RemoteListService.Size L st ⟨tOp, tLog, openOk⟩ args).1.service.remoteList
          = (st.service.remoteList.Size args).1)
    ∧ (∀ args : AppendArgs,
      (RemoteListService.Append L st ⟨tOp, tLog, false⟩ args).2 = .ok true
      ∧ (RemoteListService.Append L st ⟨tOp, tLog, false⟩ args).1
          = { service :=
                { remoteList := (st.service.remoteList.Append args).1,
                  lastLoggedOperationTimestamp := st.service.lastLoggedOperationTimestamp },
              logFile := st.logFile }) := by
  refine ⟨?_, ?_, ?_, ?_, ?_⟩
  · intro args
    simp [RemoteListService.Append, ServerState.withStore, logAndTrackWithValue_store]
  · intro args
    simp [RemoteListService.Get, ServerState.withStore, logAndTrackWithValue_store]
  · intro args
    simp [RemoteListService.Remove, ServerState.withStore, logAndTrackWithoutValue_store]
  · intro args
    simp [RemoteListService.Size, ServerState.withStore, logAndTrackWithValue_store]
  · intro args
    constructor
    · simp [RemoteListService.Append, RemoteList.Append]
    · simp [RemoteListService.Append, logAndTrackWithValue, AppendLog, writeLog,
        ServerState.withStore]

/-! ## Theorems: the round trip of a log line -/

/-- The number of fields of the line written for a request. -/
theorem Fields_logString_length (L : TimeLayout) (req : Request)
    (htok : isToken (L.Format req.env.logTime) = true)
    (hid : isToken req.call.ListID = true) :
    (Fields (logString L req.logEntry)).length
      = match req.call with
        | .Remove _ => 3
        | _ => 4 := by
  have hA : isToken "Append" = true := by decide
  have hG : isToken "Get/Size" = true := by decide
  have hR : isToken "Remove" = true := by decide
  have hall : ∀ (a b c : String), isToken a = true → isToken b = true → isToken c = true →
      ∀ t ∈ [a, b, c], isToken t = true := by
    intro a b c ha hb hc t ht
    simp only [List.mem_cons, List.mem_singleton, List.not_mem_nil, or_false] at ht
    rcases ht with h | h | h <;> rw [h] <;> assumption
  have hall4 : ∀ (a b c d : String), isToken a = true → isToken b = true →
      isToken c = true → isToken d = true → ∀ t ∈ [a, b, c, d], isToken t = true := by
    intro a b c d ha hb hc hd t ht
    simp only [List.mem_cons, List.mem_singleton, List.not_mem_nil, or_false] at ht
    rcases ht with h | h | h | h <;> rw [h] <;> assumption
  rw [logString_logEntry]
  cases req with
  | mk call env =>
    cases call with
    | Append args =>
      have htok2 : isToken (L.Format env.logTime) = true := htok
      have hid2 : isToken args.ListID = true := hid
      simp only
      rw [Fields_joinTokens _ (hall4 _ _ _ _ htok2 hA hid2 (formatInt_isToken args.Value))]
      rfl
    | Get args =>
      have htok2 : isToken (L.Format env.logTime) = true := htok
      have hid2 : isToken args.ListID = true := hid
      simp only
      rw [Fields_joinTokens _ (hall4 _ _ _ _ htok2 hG hid2 (formatInt_isToken args.Index))]
      rfl
    | Remove args =>
      have htok2 : isToken (L.Format env.logTime) = true := htok
      have hid2 : isToken args.ListID = true := hid
      simp only
      rw [Fields_joinTokens _ (hall _ _ _ htok2 hR hid2)]
      rfl
    | Size args =>
      have htok2 : isToken (L.Format env.logTime) = true := htok
      have hid2 : isToken args.ListID = true := hid
      simp only
      rw [Fields_joinTokens _ (hall4 _ _ _ _ htok2 hG hid2 (formatInt_isToken 0))]
      rfl

/-- The line writeLog writes for an entry with a token identifier and 64-bit
integers: it has no newline, 4 fields for Append and Get/Size and 3 for
Remove, and once the scanner has yielded it the scanning loop appends one
entry to those of the old log. -/
theorem logString_round_trip (L : TimeLayout) (since : Time) (logFile : String)
    (entry : LogEntry)
    (hop : entry.Operation = "Append" ∨ entry.Operation = "Remove"
      ∨ entry.Operation = "Get/Size")
    (hid : isToken entry.ListID = true)
    (hval : fitsInt entry.Value = true) (hidx : fitsInt entry.Index = true)
    (hsince : since < entry.Timestamp)
    (htok : isToken (L.Format entry.Timestamp) = true)
    (hparse : L.Parse (L.Format entry.Timestamp) = some entry.Timestamp)
    (hfile : isClosed logFile = true) :
    writeLog L true logFile entry = some (logFile ++ logString L entry ++ "\n")
    ∧ (Fields (logString L entry)).length = (if entry.Operation = "Remove" then 3 else 4)
    ∧ readEntries L since (logFile ++ logString L entry ++ "\n")
        = readEntries L since logFile
          ++ [⟨entry.Timestamp, entry.Operation, entry.ListID,
                if entry.Operation = "Append" then entry.Value else 0,
                if entry.Operation = "Get/Size" then entry.Index else 0⟩]
    ∧ (∀ c ∈ (logString L entry).data, c ≠ '\n') := by
  have hne : ("Get/Size" = "Append") = False := by decide
  have hre : ("Remove" = "Append") = False := by decide
  have hrg : ("Remove" = "Get/Size") = False := by decide
  have hgr : ("Get/Size" = "Remove") = False := by decide
  have har : ("Append" = "Remove") = False := by decide
  have hag : ("Append" = "Get/Size") = False := by decide
  have h0 : fitsInt 0 = true := by decide
  have key : ∀ req : Request, req.env.logTime = entry.Timestamp →
      req.call.ListID = entry.ListID → logString L req.logEntry = logString L entry →
      fitsInt req.logEntry.Value = true → fitsInt req.logEntry.Index = true →
      readEntries L since (logFile ++ logString L entry ++ "\n")
        = readEntries L since logFile ++ [req.logEntry]
      ∧ (Fields (logString L entry)).length
        = (match req.call with
          | .Remove _ => 3
          | _ => 4)
      ∧ (∀ c ∈ (logString L entry).data, c ≠ '\n') := by
    intro req htime hlist hline hv hi
    obtain ⟨hread, hnl, hcr⟩ := readLine_logString L since req (by rw [htime]; exact hsince)
      (by rw [htime]; exact htok) (by rw [htime]; exact hparse) (by rw [hlist]; exact hid)
      hv hi
    have hlen := Fields_logString_length L req (by rw [htime]; exact htok)
      (by rw [hlist]; exact hid)
    rw [hline] at hread hnl hcr hlen
    obtain ⟨hscan, _⟩ := scanLines_append_line logFile (logString L entry) hfile hnl hcr
    refine ⟨?_, hlen, hnl⟩
    simp only [readEntries_eq_filterMap, hscan, List.filterMap_append, List.filterMap_cons,
      List.filterMap_nil, hread]
  refine ⟨rfl, ?_⟩
  obtain ⟨ts, op, listID, value, index⟩ := entry
  simp only at hop hid hval hidx hsince htok hparse
  rcases hop with hop | hop | hop
  · subst hop
    obtain ⟨h1, h2, h3⟩ := key ⟨.Append ⟨listID, value⟩, ⟨ts, ts, true⟩⟩ rfl rfl
      (by simp [logString, Request.logEntry]) hval h0
    simp only [hag, har, if_true, if_false]
    exact ⟨h2, h1, h3⟩
  · subst hop
    obtain ⟨h1, h2, h3⟩ := key ⟨.Remove ⟨listID⟩, ⟨ts, ts, true⟩⟩ rfl rfl
      (by simp [logString, Request.logEntry, hre, hrg]) h0 h0
    simp only [hre, hrg, if_true, if_false]
    exact ⟨h2, h1, h3⟩
  · subst hop
    obtain ⟨h1, h2, h3⟩ := key ⟨.Get ⟨listID, index⟩, ⟨ts, ts, true⟩⟩ rfl rfl
      (by simp [logString, Request.logEntry, hne]) h0 hidx
    simp only [hne, hgr, if_true, if_false]
    exact ⟨h2, h1, h3⟩

theorem isToken_of (s : String) (hne : s.data ≠ [])
    (hsp : ∀ c ∈ s.data, IsSpace c = false) : isToken s = true := by
  unfold isToken
  rw [Bool.and_eq_true]
  constructor
  · cases hd : s.data with
    | nil => exact absurd hd hne
    | cons c cs => rfl
  · rw [List.all_eq_true]
    intro c hc
    rw [hsp c hc]
    rfl

theorem longToken_isToken : isToken longToken = true := by
  apply isToken_of
  · intro h
    have h2 : (List.replicate 70000 'x').length = 0 := by
      have h3 : List.replicate 70000 'x' = [] := h
      rw [h3]; rfl
    rw [List.length_replicate] at h2
    exact absurd h2 (by decide)
  · intro c hc
    rw [mem_longToken c hc]
    decide

/-- A log line written for an Append to the identifier `longToken` does not
fit the scanner's buffer: the file that holds it makes the scanner fail. -/
theorem longToken_line_tooLong (L : TimeLayout) (t : Time)
    (hnl : ∀ c ∈ (logString L ⟨t, "Append", longToken, 1, 0⟩).data, c ≠ '\n') :
    ErrTooLong ("" ++ logString L ⟨t, "Append", longToken, 1, 0⟩ ++ "\n") = true := by
  rw [ErrTooLong_append_line "" _ (by decide) hnl]
  have hbytes : MaxScanTokenSize
      ≤ byteLength (logString L ⟨t, "Append", longToken, 1, 0⟩).data := by
    have hls : logString L ⟨t, "Append", longToken, 1, 0⟩
        = L.Format t ++ " " ++ "Append" ++ " " ++ longToken ++ " " ++ formatInt 1 := by
      simp only [logString, if_true]
    rw [hls]
    simp only [String.data_append, byteLength_append, byteLength_longToken]
    unfold MaxScanTokenSize
    omega
  rw [decide_eq_true hbytes, Bool.or_true]

/-- C16 (log line round trip), amended to a line that fits the scanner's
buffer. For every entry whose operation is Append, Remove or Get/Size, whose
identifier is a non-empty string without white space, whose value and index
are 64-bit integers of either sign, whose timestamp the layout writes as one
token that parses back to the same instant, and whose line has fewer than
`MaxScanTokenSize` (64 KiB) bytes: writeLog appends one line to a log whose
lines are all ended, the line has 4 fields for Append and Get/Size and 3
fields for Remove, and, the old log being read without error,
ReadLogsFromTimestamp with a watermark before the entry's timestamp returns
without error, after the entries of the old log, exactly one entry with the
same timestamp, operation and identifier, whose Value is the original for
Append and zero otherwise, and whose Index is the original for Get/Size and
zero otherwise. -/
theorem C16_log_line_round_trip (L : TimeLayout) (since : Time) (logFile : String)
    (entry : LogEntry)
    (hop : entry.Operation = "Append" ∨ entry.Operation = "Remove"
      ∨ entry.Operation = "Get/Size")
    (hid : isToken entry.ListID = true)
    (hval : fitsInt entry.Value = true) (hidx : fitsInt entry.Index = true)
    (hsince : since < entry.Timestamp)
    (htok : isToken (L.Format entry.Timestamp) = true)
    (hparse : L.Parse (L.Format entry.Timestamp) = some entry.Timestamp)
    (hfile : isClosed logFile = true)
    (hold : ErrTooLong logFile = false)
    (hlen : byteLength (logString L entry).data < MaxScanTokenSize) :
    writeLog L true logFile entry = some (logFile ++ logString L entry ++ "\n")
    ∧ (Fields (logString L entry)).length = (if entry.Operation = "Remove" then 3 else 4)
    ∧ ReadLogsFromTimestamp L since true (logFile ++ logString L entry ++ "\n")
        = ((ReadLogsFromTimestamp L since true logFile).1
            ++ [⟨entry.Timestamp, entry.Operation, entry.ListID,
                  if entry.Operation = "Append" then entry.Value else 0,
                  if entry.Operation = "Get/Size" then entry.Index else 0⟩], none) := by
  obtain ⟨h1, h2, h3, hnl⟩ := logString_round_trip L since logFile entry hop hid hval hidx
    hsince htok hparse hfile
  have hfits : ErrTooLong (logFile ++ logString L entry ++ "\n") = false := by
    rw [ErrTooLong_append_line logFile _ hfile hnl, hold, Bool.false_or]
    exact decide_eq_false (Nat.not_le.mpr hlen)
  refine ⟨h1, h2, ?_⟩
  rw [ReadLogs_ok L since _ hfits, ReadLogs_ok L since _ hold, h3]

/-- Witness for C16: an Append entry with the negative value -7 and a stray
index, stamped 2024-05-01T10:00:00.000000005Z, written to the empty log. -/
theorem C16_log_line_round_trip_witness :
    writeLog rfc3339UTC true "" ⟨sampleInstant 5, "Append", "a", -7, 3⟩
        = some ("" ++ logString rfc3339UTC ⟨sampleInstant 5, "Append", "a", -7, 3⟩ ++ "\n")
    ∧ logString rfc3339UTC ⟨sampleInstant 5, "Append", "a", -7, 3⟩
        = "2024-05-01T10:00:00.000000005Z Append a -7"
    ∧ (Fields (logString rfc3339UTC ⟨sampleInstant 5, "Append", "a", -7, 3⟩)).length = 4
    ∧ ReadLogsFromTimestamp rfc3339UTC zeroTime true
        ("" ++ logString rfc3339UTC ⟨sampleInstant 5, "Append", "a", -7, 3⟩ ++ "\n")
        = ([⟨sampleInstant 5, "Append", "a", -7, 0⟩], none) :=
  ⟨(C16_log_line_round_trip rfc3339UTC zeroTime "" ⟨sampleInstant 5, "Append", "a", -7, 3⟩
      (by decide) (by decide) (by decide) (by decide) (by decide) (by decide) (by decide)
      (by decide) (by decide) (by decide)).1,
   by decide,
   (C16_log_line_round_trip rfc3339UTC zeroTime "" ⟨sampleInstant 5, "Append", "a", -7, 3⟩
      (by decide) (by decide) (by decide) (by decide) (by decide) (by decide) (by decide)
      (by decide) (by decide) (by decide)).2.1,
   (C16_log_line_round_trip rfc3339UTC zeroTime "" ⟨sampleInstant 5, "Append", "a", -7, 3⟩
      (by decide) (by decide) (by decide) (by decide) (by decide) (by decide) (by decide)
      (by decide) (by decide) (by decide)).2.2⟩

/-- Counterexample to C16 as stated: an Append entry whose identifier is a
token of 70000 characters. writeLog writes its line, and ReadLogsFromTimestamp
on the log so written returns no entry and an error, because the line does
not fit the scanner's buffer. -/
theorem C16_long_identifier_counterexample :
    isToken longToken = true
    ∧ writeLog rfc3339UTC true "" ⟨sampleInstant 5, "Append", longToken, 1, 0⟩
        = some ("" ++ logString rfc3339UTC ⟨sampleInstant 5, "Append", longToken, 1, 0⟩
            ++ "\n")
    ∧ zeroTime < sampleInstant 5
    ∧ ReadLogsFromTimestamp rfc3339UTC zeroTime true
        ("" ++ logString rfc3339UTC ⟨sampleInstant 5, "Append", longToken, 1, 0⟩ ++ "\n")
        = ([], some .readLog) := by
  obtain ⟨h1, _, _, hnl⟩ := logString_round_trip rfc3339UTC zeroTime ""
    ⟨sampleInstant 5, "Append", longToken, 1, 0⟩ (Or.inl rfl) longToken_isToken
    (by decide) (by decide) (by decide) (by decide) (by decide) (by decide)
  exact ⟨longToken_isToken, h1, by decide,
    ReadLogs_tooLong _ _ _ (longToken_line_tooLong rfc3339UTC (sampleInstant 5) hnl)⟩

/-! ## Theorems: snapshots never hide an entry -/

theorem clockReadings_append (a b : List Request) :
    clockReadings (a ++ b) = clockReadings a ++ clockReadings b := by
  induction a with
  | nil => rfl
  | cons req a ih => simp [clockReadings, ih]

theorem mem_clockReadings (reqs : List Request) (req : Request) (h : req ∈ reqs) :
    req.env.operationTime ∈ clockReadings reqs ∧ req.env.logTime ∈ clockReadings reqs := by
  induction reqs with
  | nil => simp at h
  | cons r reqs ih =>
    rw [List.mem_cons] at h
    rcases h with h | h
    · subst h
      simp [clockReadings]
    · obtain ⟨h1, h2⟩ := ih h
      simp [clockReadings, h1, h2]

/-- The timestamp tracked after serving a request is the one tracked before
or the request's first clock reading. -/
theorem serve_timestamp (L : TimeLayout) (st : ServerState) (req : Request) :
    (serve L st req).service.lastLoggedOperationTimestamp
        = st.service.lastLoggedOperationTimestamp
    ∨ (serve L st req).service.lastLoggedOperationTimestamp = req.env.operationTime := by
  cases hopen : req.env.openOk with
  | false =>
    left
    rw [serve_unlogged L st req hopen]
  | true =>
    rw [serve_logged L st req hopen]
    simp only
    split
    · right; rfl
    · left; rfl

theorem run_timestamp (L : TimeLayout) (reqs : List Request) :
    ∀ st : ServerState,
      (run L st reqs).service.lastLoggedOperationTimestamp
          = st.service.lastLoggedOperationTimestamp
      ∨ ∃ req ∈ reqs,
          (run L st reqs).service.lastLoggedOperationTimestamp = req.env.operationTime := by
  induction reqs with
  | nil => intro st; left; rfl
  | cons req reqs ih =>
    intro st
    have hrun : run L st (req :: reqs) = run L (serve L st req) reqs := rfl
    rw [hrun]
    rcases ih (serve L st req) with h | ⟨r, hr, h⟩
    · rcases serve_timestamp L st req with h2 | h2
      · left; rw [h, h2]
      · right; exact ⟨req, List.mem_cons_self _ _, by rw [h, h2]⟩
    · right; exact ⟨r, List.mem_cons_of_mem _ hr, h⟩

/-- A run started on a closed log file, log writes succeeding or not: the
store is the fold of the list methods, and the log read back from any instant
before all log timestamps is the old log followed by the entries of the
requests whose log write succeeded, in order. -/
theorem run_log (L : TimeLayout) (since : Time) (reqs : List Request) :
    ∀ st : ServerState, isClosed st.logFile = true →
    (∀ req ∈ reqs, since < req.env.logTime) →
    (∀ req ∈ reqs, isToken (L.Format req.env.logTime) = true
      ∧ L.Parse (L.Format req.env.logTime) = some req.env.logTime) →
    (∀ req ∈ reqs, isToken req.call.ListID = true) →
    (∀ req ∈ reqs, fitsInt req.logEntry.Value = true ∧ fitsInt req.logEntry.Index = true) →
    isClosed (run L st reqs).logFile = true
    ∧ (run L st reqs).service.remoteList
        = reqs.foldl (fun rl req => rl.call req.call) st.service.remoteList
    ∧ readEntries L since (run L st reqs).logFile
        = readEntries L since st.logFile
          ++ (reqs.filter (fun req => req.env.openOk)).map Request.logEntry := by
  induction reqs with
  | nil =>
    intro st hst _ _ _ _
    exact ⟨hst, rfl, by simp [run]⟩
  | cons req reqs ih =>
    intro st hst hclock hlayout hid hint
    have hmem : req ∈ req :: reqs := List.mem_cons_self _ _
    have hsub : ∀ r ∈ reqs, r ∈ req :: reqs := fun r hr => List.mem_cons_of_mem _ hr
    have hrun : run L st (req :: reqs) = run L (serve L st req) reqs := rfl
    cases hopen : req.env.openOk with
    | false =>
      have hserve := serve_unlogged L st req hopen
      have hst1 : isClosed (serve L st req).logFile = true := by rw [hserve]; exact hst
      obtain ⟨h1, h2, h3⟩ := ih (serve L st req) hst1
        (fun r hr => hclock r (hsub r hr))
        (fun r hr => hlayout r (hsub r hr)) (fun r hr => hid r (hsub r hr))
        (fun r hr => hint r (hsub r hr))
      rw [hrun]
      refine ⟨h1, ?_, ?_⟩
      · rw [h2, hserve]; rfl
      · rw [h3, hserve]
        simp [List.filter_cons, hopen]
    | true =>
      obtain ⟨hline, hnl, hcr⟩ := readLine_logString L since req (hclock req hmem)
        (hlayout req hmem).1 (hlayout req hmem).2 (hid req hmem)
        (hint req hmem).1 (hint req hmem).2
      obtain ⟨hscan, hclosed⟩ := scanLines_append_line st.logFile _ hst hnl hcr
      have hserve := serve_logged L st req hopen
      have hst1 : isClosed (serve L st req).logFile = true := by rw [hserve]; exact hclosed
      obtain ⟨h1, h2, h3⟩ := ih (serve L st req) hst1
        (fun r hr => hclock r (hsub r hr))
        (fun r hr => hlayout r (hsub r hr)) (fun r hr => hid r (hsub r hr))
        (fun r hr => hint r (hsub r hr))
      rw [hrun]
      refine ⟨h1, ?_, ?_⟩
      · rw [h2, hserve]; rfl
      · rw [h3, hserve]
        simp only [readEntries_eq_filterMap, hscan, List.filterMap_append, List.filterMap_cons,
          List.filterMap_nil, hline, List.filter_cons, hopen, if_true, List.map_cons,
          List.append_assoc, List.singleton_append]

/-- The store after a run is the fold of the list methods of its calls,
whatever happens to the log. -/
theorem run_store (L : TimeLayout) (reqs : List Request) :
    ∀ st : ServerState, (run L st reqs).service.remoteList
      = reqs.foldl (fun rl req => rl.call req.call) st.service.remoteList := by
  induction reqs with
  | nil => intro st; rfl
  | cons req reqs ih =>
    intro st
    have hrun : run L st (req :: reqs) = run L (serve L st req) reqs := rfl
    rw [hrun, ih (serve L st req)]
    cases hopen : req.env.openOk with
    | false => rw [serve_unlogged L st req hopen]; rfl
    | true => rw [serve_logged L st req hopen]; rfl

/-- A run only appends to the log file. -/
theorem run_logFile_suffix (L : TimeLayout) (reqs : List Request) :
    ∀ st : ServerState, ∃ suffix : String, (run L st reqs).logFile = st.logFile ++ suffix := by
  induction reqs with
  | nil => intro st; exact ⟨"", by simp [run]⟩
  | cons req reqs ih =>
    intro st
    have hrun : run L st (req :: reqs) = run L (serve L st req) reqs := rfl
    obtain ⟨suffix, hs⟩ := ih (serve L st req)
    rw [hrun, hs]
    cases hopen : req.env.openOk with
    | false =>
      rw [serve_unlogged L st req hopen]
      exact ⟨suffix, rfl⟩
    | true =>
      rw [serve_logged L st req hopen]
      exact ⟨logString L req.logEntry ++ "\n" ++ suffix, by simp [String.append_assoc]⟩

/-- C12 (replay never skips an unapplied entry), amended to identifiers that
are tokens and to a log that is read without error. Take a run from a fresh
server under a strictly increasing clock that starts after the zero time, cut
into the calls made before a snapshot tick and the calls made after it, and
let `w` be the timestamp the service tracks at the tick. Then the snapshot
holds `w` and the store to which the list method of every call made before
the tick has been applied, and every entry written by a later call is stamped
strictly after `w`. When moreover the identifiers are non-empty and free of
white space, the integers are 64-bit, the layout writes each log timestamp as
one token that it reads back, and no line of the final log reaches
`MaxScanTokenSize` (64 KiB): every entry read from the final log that is
stamped `w` or earlier was written by a call made before the tick, and
ReadLogsFromTimestamp(w) on the final log, the file being opened, returns
without error, after what it returns on the log as it was at the tick, the
entry of every later call whose log write succeeded, in order. -/
theorem C12_snapshot_never_hides_an_entry (L : TimeLayout) (pre post : List Request)
    (hclock : (zeroTime :: clockReadings (pre ++ post)).Pairwise (fun a b => a < b)) :
    LoadSnapshot (snapshotTick (run L (freshServer L) pre))
        = (pre.foldl (fun rl req => rl.call req.call) NewRemoteList,
            (run L (freshServer L) pre).service.lastLoggedOperationTimestamp)
    ∧ (∀ req ∈ post,
        (run L (freshServer L) pre).service.lastLoggedOperationTimestamp
          < req.logEntry.Timestamp)
    ∧ ((∀ req ∈ pre ++ post, isToken (L.Format req.env.logTime) = true
          ∧ L.Parse (L.Format req.env.logTime) = some req.env.logTime) →
      (∀ req ∈ pre ++ post, isToken req.call.ListID = true) →
      (∀ req ∈ pre ++ post,
          fitsInt req.logEntry.Value = true ∧ fitsInt req.logEntry.Index = true) →
      ErrTooLong (run L (run L (freshServer L) pre) post).logFile = false →
      (∀ entry ∈ (ReadLogsFromTimestamp L zeroTime true
            (run L (run L (freshServer L) pre) post).logFile).1,
          entry.Timestamp
            ≤ (run L (freshServer L) pre).service.lastLoggedOperationTimestamp →
          entry ∈ (pre.filter (fun req => req.env.openOk)).map Request.logEntry)
      ∧ ReadLogsFromTimestamp L
            (run L (freshServer L) pre).service.lastLoggedOperationTimestamp true
            (run L (run L (freshServer L) pre) post).logFile
          = ((ReadLogsFromTimestamp L
                (run L (freshServer L) pre).service.lastLoggedOperationTimestamp true
                (run L (freshServer L) pre).logFile).1
              ++ (post.filter (fun req => req.env.openOk)).map Request.logEntry, none)) := by
  have hpre : ∀ r ∈ pre, r ∈ pre ++ post := fun r hr => List.mem_append_left _ hr
  have hpost : ∀ r ∈ post, r ∈ pre ++ post := fun r hr => List.mem_append_right _ hr
  rw [clockReadings_append, ← List.cons_append, List.pairwise_append] at hclock
  obtain ⟨hc1, _, hc3⟩ := hclock
  have hzero : ∀ r ∈ pre ++ post, zeroTime < r.env.logTime := by
    intro r hr
    rw [List.mem_append] at hr
    rcases hr with hr | hr
    · exact (List.pairwise_cons.mp hc1).1 _ (mem_clockReadings pre r hr).2
    · exact hc3 zeroTime (List.mem_cons_self _ _) _ (mem_clockReadings post r hr).2
  have hts : ∀ r : Request, r.logEntry.Timestamp = r.env.logTime := by
    intro r
    cases r with
    | mk call env => cases call <;> rfl
  have hw : ∀ r ∈ post,
      (run L (freshServer L) pre).service.lastLoggedOperationTimestamp < r.env.logTime := by
    intro r hr
    have hlog := (mem_clockReadings post r hr).2
    rcases run_timestamp L pre (freshServer L) with h | ⟨q, hq, h⟩
    · rw [h, freshServer_eq]
      exact hc3 zeroTime (List.mem_cons_self _ _) _ hlog
    · rw [h]
      exact hc3 _ (List.mem_cons_of_mem _ (mem_clockReadings pre q hq).1) _ hlog
  refine ⟨?_, ?_, ?_⟩
  · simp only [snapshotTick, SaveSnapshot, LoadSnapshot]
    rw [run_store, freshServer_eq]
  · intro r hr
    rw [hts]
    exact hw r hr
  · intro hlayout hid hint hscan
    obtain ⟨hclosed1, _, hread1⟩ := run_log L zeroTime pre (freshServer L)
      (freshServer_closed L) (fun r hr => hzero r (hpre r hr))
      (fun r hr => hlayout r (hpre r hr)) (fun r hr => hid r (hpre r hr))
      (fun r hr => hint r (hpre r hr))
    obtain ⟨_, _, hread2⟩ := run_log L zeroTime post (run L (freshServer L) pre) hclosed1
      (fun r hr => hzero r (hpost r hr))
      (fun r hr => hlayout r (hpost r hr)) (fun r hr => hid r (hpost r hr))
      (fun r hr => hint r (hpost r hr))
    obtain ⟨_, _, hread3⟩ := run_log L
      (run L (freshServer L) pre).service.lastLoggedOperationTimestamp post
      (run L (freshServer L) pre) hclosed1 hw
      (fun r hr => hlayout r (hpost r hr)) (fun r hr => hid r (hpost r hr))
      (fun r hr => hint r (hpost r hr))
    have hmid : ErrTooLong (run L (freshServer L) pre).logFile = false := by
      obtain ⟨suffix, hs⟩ := run_logFile_suffix L post (run L (freshServer L) pre)
      rw [hs, ErrTooLong_closed_append _ _ hclosed1, Bool.or_eq_false_iff] at hscan
      exact hscan.1
    rw [ReadLogs_ok L _ _ hscan, ReadLogs_ok L _ _ hscan, ReadLogs_ok L _ _ hmid]
    refine ⟨?_, by rw [hread3]⟩
    intro entry hentry hle
    simp only at hentry
    rw [hread2, hread1, freshServer_eq] at hentry
    simp only [readEntries_empty, List.nil_append, List.mem_append] at hentry
    rcases hentry with hentry | hentry
    · exact hentry
    · exfalso
      obtain ⟨r, hr, heq⟩ := List.mem_map.mp hentry
      have hr2 : r ∈ post := (List.mem_filter.mp hr).1
      have hlt := hw r hr2
      rw [← hts r, heq] at hlt
      exact absurd hle (not_le.mpr hlt)

/-- Witness for C12: the sample run cut after its two appends. The snapshot
tick tracks 2024-05-01T10:00:00.000000003Z; ReadLogsFromTimestamp at that
instant returns the entries of the three later calls, after the entry of the
second append, which is stamped ...004Z. -/
theorem C12_snapshot_never_hides_an_entry_witness :
    (run rfc3339UTC (freshServer rfc3339UTC)
        (sampleRun.take 2)).service.lastLoggedOperationTimestamp = sampleInstant 3
    ∧ ReadLogsFromTimestamp rfc3339UTC
          (run rfc3339UTC (freshServer rfc3339UTC)
            (sampleRun.take 2)).service.lastLoggedOperationTimestamp true
          (run rfc3339UTC (run rfc3339UTC (freshServer rfc3339UTC) (sampleRun.take 2))
            (sampleRun.drop 2)).logFile
        = ((ReadLogsFromTimestamp rfc3339UTC
              (run rfc3339UTC (freshServer rfc3339UTC)
                (sampleRun.take 2)).service.lastLoggedOperationTimestamp true
              (run rfc3339UTC (freshServer rfc3339UTC) (sampleRun.take 2)).logFile).1
            ++ ((sampleRun.drop 2).filter (fun req => req.env.openOk)).map Request.logEntry,
           none)
    ∧ ReadLogsFromTimestamp rfc3339UTC (sampleInstant 3) true
          (run rfc3339UTC (run rfc3339UTC (freshServer rfc3339UTC) (sampleRun.take 2))
            (sampleRun.drop 2)).logFile
        = ([⟨sampleInstant 4, "Append", "a", -2, 0⟩, ⟨sampleInstant 6, "Get/Size", "a", 0, 0⟩,
            ⟨sampleInstant 8, "Remove", "a", 0, 0⟩, ⟨sampleInstant 10, "Get/Size", "a", 0, 0⟩],
           none) :=
  ⟨by decide,
   ((C12_snapshot_never_hides_an_entry rfc3339UTC (sampleRun.take 2) (sampleRun.drop 2)
      (by decide)).2.2 (by decide) (by decide) (by decide) (by decide)).2,
   by decide⟩

/-- Counterexample to C12 as stated, in two runs under a strictly increasing
clock. First run: Append(`a`, 1), a snapshot tick that tracks
2024-05-01T10:00:00.000000001Z, then Append(`my list`, 5), whose entry is
stamped ...004Z, after the tick's timestamp; the log holds its line, and
ReadLogsFromTimestamp at the tick's timestamp returns only the entry of the
first append. Second run: a snapshot tick on the fresh server, then one
Append to the identifier `longToken` of 70000 characters, stamped ...002Z;
ReadLogsFromTimestamp at the tick's timestamp, the zero time, returns no entry
and an error. -/
theorem C12_entry_not_returned_counterexample :
    ((zeroTime :: clockReadings
        ([⟨.Append ⟨"a", 1⟩, ⟨sampleInstant 1, sampleInstant 2, true⟩⟩]
          ++ [⟨.Append ⟨"my list", 5⟩, ⟨sampleInstant 3, sampleInstant 4, true⟩⟩])).Pairwise
        (fun a b => a < b)
      ∧ (run rfc3339UTC (freshServer rfc3339UTC)
          [⟨.Append ⟨"a", 1⟩,
            ⟨sampleInstant 1, sampleInstant 2, true⟩⟩]).service.lastLoggedOperationTimestamp
          = sampleInstant 1
      ∧ (Request.logEntry ⟨.Append ⟨"my list", 5⟩, ⟨sampleInstant 3, sampleInstant 4, true⟩⟩)
          = ⟨sampleInstant 4, "Append", "my list", 5, 0⟩
      ∧ sampleInstant 1 < sampleInstant 4
      ∧ (run rfc3339UTC
          (run rfc3339UTC (freshServer rfc3339UTC)
            [⟨.Append ⟨"a", 1⟩, ⟨sampleInstant 1, sampleInstant 2, true⟩⟩])
          [⟨.Append ⟨"my list", 5⟩, ⟨sampleInstant 3, sampleInstant 4, true⟩⟩]).logFile
          = "2024-05-01T10:00:00.000000002Z Append a 1\n"
            ++ "2024-05-01T10:00:00.000000004Z Append my list 5\n"
      ∧ ReadLogsFromTimestamp rfc3339UTC (sampleInstant 1) true
          (run rfc3339UTC
            (run rfc3339UTC (freshServer rfc3339UTC)
              [⟨.Append ⟨"a", 1⟩, ⟨sampleInstant 1, sampleInstant 2, true⟩⟩])
            [⟨.Append ⟨"my list", 5⟩, ⟨sampleInstant 3, sampleInstant 4, true⟩⟩]).logFile
          = ([⟨sampleInstant 2, "Append", "a", 1, 0⟩], none))
    ∧ ((zeroTime :: clockReadings
        ([] ++ [⟨.Append ⟨longToken, 1⟩, ⟨sampleInstant 1, sampleInstant 2, true⟩⟩])).Pairwise
        (fun a b => a < b)
      ∧ isToken longToken = true
      ∧ (run rfc3339UTC (freshServer rfc3339UTC) []).service.lastLoggedOperationTimestamp
          = zeroTime
      ∧ (Request.logEntry ⟨.Append ⟨longToken, 1⟩, ⟨sampleInstant 1, sampleInstant 2, true⟩⟩)
          = ⟨sampleInstant 2, "Append", longToken, 1, 0⟩
      ∧ zeroTime < sampleInstant 2
      ∧ ReadLogsFromTimestamp rfc3339UTC zeroTime true
          (run rfc3339UTC (run rfc3339UTC (freshServer rfc3339UTC) [])
            [⟨.Append ⟨longToken, 1⟩, ⟨sampleInstant 1, sampleInstant 2, true⟩⟩]).logFile
          = ([], some .readLog)) := by
  refine ⟨⟨by decide, by decide, rfl, by decide, by decide, by decide⟩,
    ⟨by decide, longToken_isToken, rfl, rfl, by decide, ?_⟩⟩
  have hrun : run rfc3339UTC (run rfc3339UTC (freshServer rfc3339UTC) [])
      [⟨.Append ⟨longToken, 1⟩, ⟨sampleInstant 1, sampleInstant 2, true⟩⟩]
      = serve rfc3339UTC (freshServer rfc3339UTC)
          ⟨.Append ⟨longToken, 1⟩, ⟨sampleInstant 1, sampleInstant 2, true⟩⟩ := rfl
  have hlog : (serve rfc3339UTC (freshServer rfc3339UTC)
      ⟨.Append ⟨longToken, 1⟩, ⟨sampleInstant 1, sampleInstant 2, true⟩⟩).logFile
      = "" ++ logString rfc3339UTC ⟨sampleInstant 2, "Append", longToken, 1, 0⟩ ++ "\n" := by
    rw [serve_logged rfc3339UTC _ _ rfl]
    rfl
  obtain ⟨_, _, _, hnl⟩ := logString_round_trip rfc3339UTC zeroTime ""
    ⟨sampleInstant 2, "Append", longToken, 1, 0⟩ (Or.inl rfl) longToken_isToken
    (by decide) (by decide) (by decide) (by decide) (by decide) (by decide)
  rw [hrun, hlog]
  exact ReadLogs_tooLong _ _ _ (longToken_line_tooLong rfc3339UTC (sampleInstant 2) hnl)
